import Mathlib

/-!
Shallow embedding of the WaveSync subtitle core: the SRT codec
(`parseTimestamp`, `formatTimestamp`, `parseSRT`, `formatSRT`) and the sync
correction engine (`applySyncCorrection`, `interpolateTime`), translated from
the repository's `srt-parser` module and the waveform player component.
JavaScript strings are modelled as lists of characters, JavaScript numbers
holding integral millisecond counts as `Int`/`Nat`, and JavaScript numbers
holding fractional seconds as `ℚ`.
-/

/-- JavaScript strings, modelled as lists of characters. -/
abbrev Str := List Char

def nlChar : Char := '\n'

/-- Whitespace characters stripped by `String.prototype.trim`: space, tab,
newline, carriage return, vertical tab, form feed (given by code point). -/
def isWsChar (c : Char) : Bool :=
  c.toNat = 32 || c.toNat = 9 || c.toNat = 10 || c.toNat = 13 || c.toNat = 11 || c.toNat = 12

def trimL (s : Str) : Str := s.dropWhile isWsChar

def trimR (s : Str) : Str := (s.reverse.dropWhile isWsChar).reverse

/-- `String.prototype.trim`. -/
def jsTrim (s : Str) : Str := trimR (trimL s)

/-- `String.prototype.split('\n')`: `"".split('\n')` is `[""]`, and no
trailing separator is implied. -/
def splitOnNl : Str → List Str
  | [] => [[]]
  | c :: cs => if c = nlChar then [] :: splitOnNl cs else (splitOnNl cs).modifyHead (c :: ·)

/-- The digit class `\d`: code points of `'0'` through `'9'`. -/
def isDigitChar (c : Char) : Bool := 48 ≤ c.toNat && c.toNat ≤ 57

def digitVal (c : Char) : Nat := c.toNat - 48

def digitChar (n : Nat) : Char := Char.ofNat (48 + n)

/-- Value of a non-empty string of decimal digits. -/
def parseDigits (s : Str) : Nat := s.foldl (fun a c => a * 10 + digitVal c) 0

/-- Decimal rendering of a natural number, with fuel `n + 1` (the recursion
depth of repeated division by 10 is at most the fuel). -/
def natToStrAux : Nat → Nat → Str
  | 0, _ => []
  | fuel + 1, n => if n < 10 then [digitChar n] else natToStrAux fuel (n / 10) ++ [digitChar (n % 10)]

/-- `Number.prototype.toString` on a non-negative integer. -/
def natToStr (n : Nat) : Str := natToStrAux (n + 1) n

/-- `Number.prototype.toString` on an integer. -/
def intToStr (i : Int) : Str := if i < 0 then '-' :: natToStr i.natAbs else natToStr i.toNat

def isHexDigitChar (c : Char) : Bool :=
  isDigitChar c || ('a' ≤ c && c ≤ 'f') || ('A' ≤ c && c ≤ 'F')

def hexVal (c : Char) : Nat :=
  if isDigitChar c then digitVal c
  else if 'a' ≤ c && c ≤ 'f' then c.toNat - 87
  else c.toNat - 55

def parseHexDigits (s : Str) : Nat := s.foldl (fun a c => a * 16 + hexVal c) 0

/-- Magnitude part of `parseInt` with an unspecified radix: a `0x`/`0X` prefix
selects base 16, otherwise base 10; parsing stops at the first invalid
character and fails when no digit was consumed. -/
def jsParseNat (s : Str) : Option Nat :=
  match s with
  | '0' :: 'x' :: rest =>
    let ds := rest.takeWhile isHexDigitChar
    if ds = [] then none else some (parseHexDigits ds)
  | '0' :: 'X' :: rest =>
    let ds := rest.takeWhile isHexDigitChar
    if ds = [] then none else some (parseHexDigits ds)
  | _ =>
    let ds := s.takeWhile isDigitChar
    if ds = [] then none else some (parseDigits ds)

/-- `parseInt(s)`: skip leading whitespace, read an optional sign, then the
magnitude; `none` models a `NaN` result. -/
def jsParseInt (s : Str) : Option Int :=
  match s.dropWhile isWsChar with
  | '-' :: rest => (jsParseNat rest).map (fun n => -(n : Int))
  | '+' :: rest => (jsParseNat rest).map (fun n => (n : Int))
  | rest => (jsParseNat rest).map (fun n => (n : Int))

/-- `String.prototype.padStart(w, '0')`. -/
def padStart (s : Str) (w : Nat) : Str := List.replicate (w - s.length) '0' ++ s

/-- The `SRTParseError` class: a message and an optional 1-based line number. -/
structure SRTParseError where
  message : Str
  line : Option Nat
deriving DecidableEq, Repr

instance {ε α : Type} [DecidableEq ε] [DecidableEq α] : DecidableEq (Except ε α) := fun a b =>
  match a, b with
  | .ok x, .ok y => if h : x = y then .isTrue (by rw [h]) else .isFalse (by simp [h])
  | .error x, .error y => if h : x = y then .isTrue (by rw [h]) else .isFalse (by simp [h])
  | .ok _, .error _ => .isFalse (by simp)
  | .error _, .ok _ => .isFalse (by simp)

/-- The `SubtitleEntry` interface: id, start/end timestamps kept as their
source strings, and the text lines. -/
structure SubtitleEntry where
  id : Int
  startTime : Str
  endTime : Str
  text : List Str
deriving DecidableEq, Repr

/-- Match against `/^(\d\d):(\d\d):(\d\d),(\d\d\d)$/` and read the four
captured groups as numbers. -/
def matchTs (s : Str) : Option (Nat × Nat × Nat × Nat) :=
  match s with
  | [a, b, ':', c, d, ':', e, f, ',', g, h, k] =>
    if isDigitChar a && isDigitChar b && isDigitChar c && isDigitChar d && isDigitChar e &&
        isDigitChar f && isDigitChar g && isDigitChar h && isDigitChar k then
      some (parseDigits [a, b], parseDigits [c, d], parseDigits [e, f], parseDigits [g, h, k])
    else none
  | _ => none

/-- `parseTimestamp`: SRT timestamp text to milliseconds, throwing
`SRTParseError` on any deviation from the pattern. -/
def parseTimestamp (s : Str) : Except SRTParseError Nat :=
  match matchTs s with
  | some (hh, mm, ss, ms) => .ok (hh * 3600000 + mm * 60000 + ss * 1000 + ms)
  | none => .error ⟨("Invalid timestamp format: ").data ++ s, none⟩

/-- Whether a string matches the timestamp pattern accepted by `parseTimestamp`. -/
def isTsStr (s : Str) : Bool := (matchTs s).isSome

/-- The millisecond value of a timestamp string (0 on a non-matching string);
total companion of `parseTimestamp` used to state theorems. -/
def tsValue (s : Str) : Nat :=
  match matchTs s with
  | some (hh, mm, ss, ms) => hh * 3600000 + mm * 60000 + ss * 1000 + ms
  | none => 0

/-- `formatTimestamp`: milliseconds to `HH:MM:SS,mmm`.  `Math.floor` of an
integer quotient is `Int.fdiv` and the `%` remainder operator is `Int.tmod`,
so the behaviour on negative inputs is preserved. -/
def formatTimestamp (ms : Int) : Str :=
  padStart (intToStr (ms.fdiv 3600000)) 2 ++
    ':' :: padStart (intToStr ((ms.tmod 3600000).fdiv 60000)) 2 ++
    ':' :: padStart (intToStr ((ms.tmod 60000).fdiv 1000)) 2 ++
    ',' :: padStart (intToStr (ms.tmod 1000)) 3

def arrowSep : Str := (" --> ").data

/-- Match against `/^(\d\d:\d\d:\d\d,\d\d\d) --> (\d\d:\d\d:\d\d,\d\d\d)$/`,
returning the two captured timestamp strings.  The pattern is fixed-width:
12 + 5 + 12 characters. -/
def matchTimingLine (s : Str) : Option (Str × Str) :=
  if s.length == 29 && isTsStr (s.take 12) && ((s.drop 12).take 5 == arrowSep) &&
      isTsStr (s.drop 17) then
    some (s.take 12, s.drop 17)
  else none

/-- Parser state of `parseSRT`: no current entry, an entry with only its id,
or an entry with id and both timestamps accumulating text lines. -/
inductive PState where
  | awaitingId : PState
  | awaitingTiming : Int → PState
  | accText : Int → Str → Str → List Str → PState
deriving DecidableEq, Repr

/-- The line loop of `parseSRT`: each raw line is trimmed; blank lines flush
the current entry when it already has text (and are skipped otherwise); the
first line of an entry must parse as an integer id, the second must match the
timing pattern (whose halves are re-validated through `parseTimestamp`), and
all further non-blank lines accumulate as text.  End of input flushes a
pending entry that has text. -/
def parseSRTAux : List Str → Nat → PState → List SubtitleEntry →
    Except SRTParseError (List SubtitleEntry)
  | [], _, st, acc =>
    match st with
    | .accText i a b (t :: ts) => .ok (acc ++ [⟨i, a, b, t :: ts⟩])
    | _ => .ok acc
  | rawLine :: rest, ln, st, acc =>
    if jsTrim rawLine = [] then
      match st with
      | .accText i a b (t :: ts) => parseSRTAux rest (ln + 1) .awaitingId (acc ++ [⟨i, a, b, t :: ts⟩])
      | _ => parseSRTAux rest (ln + 1) st acc
    else
      match st with
      | .awaitingId =>
        match jsParseInt (jsTrim rawLine) with
        | none => .error ⟨("Invalid subtitle ID").data, some ln⟩
        | some i => parseSRTAux rest (ln + 1) (.awaitingTiming i) acc
      | .awaitingTiming i =>
        match matchTimingLine (jsTrim rawLine) with
        | none => .error ⟨("Invalid timestamp line").data, some ln⟩
        | some (a, b) =>
          match parseTimestamp a, parseTimestamp b with
          | .ok _, .ok _ => parseSRTAux rest (ln + 1) (.accText i a b []) acc
          | .error e, _ => .error e
          | _, .error e => .error e
      | .accText i a b ts => parseSRTAux rest (ln + 1) (.accText i a b (ts ++ [jsTrim rawLine])) acc

/-- `parseSRT`: trim the content, split it on newlines and run the line loop. -/
def parseSRT (content : Str) : Except SRTParseError (List SubtitleEntry) :=
  parseSRTAux (splitOnNl (jsTrim content)) 1 .awaitingId []

def timingLine (e : SubtitleEntry) : Str := e.startTime ++ arrowSep ++ e.endTime

/-- `formatSRT`: each entry becomes its id line, the timing line, the text
lines and one empty line, joined with newlines; the blocks are then joined
with newlines. -/
def formatSRT (entries : List SubtitleEntry) : Str :=
  List.intercalate [nlChar]
    (entries.map (fun e => List.intercalate [nlChar] ([intToStr e.id, timingLine e] ++ e.text ++ [[]])))

/-- A sync point of the waveform player: times are in seconds.
`subtitleTime` is the reference (original subtitle) time and `audioTime` the
target (observed audio) time. -/
structure SyncPoint where
  id : Str
  audioTime : ℚ
  subtitleTime : ℚ
  subtitleId : Int
deriving DecidableEq

/-- Comparison used by `sort((a, b) => a.subtitleTime - b.subtitleTime)`. -/
def spLE (a b : SyncPoint) : Prop := a.subtitleTime ≤ b.subtitleTime

instance : DecidableRel spLE :=
  fun a b => inferInstanceAs (Decidable (a.subtitleTime ≤ b.subtitleTime))

instance : IsTotal SyncPoint spLE := ⟨fun a b => le_total a.subtitleTime b.subtitleTime⟩

instance : IsTrans SyncPoint spLE := ⟨fun _ _ _ hab hbc => le_trans hab hbc⟩

/-- `Math.round`: floor of `x + 1/2`. -/
def jsRound (x : ℚ) : Int := ⌊x + 1 / 2⌋

/-- `convertSRTTimeToSeconds`: parse a timestamp and divide by 1000. -/
def convertSRTTimeToSeconds (s : Str) : Except SRTParseError ℚ :=
  (parseTimestamp s).map (fun ms => (ms : ℚ) / 1000)

/-- The bracketing loop of `interpolateTime` over consecutive sorted sync
points: the first adjacent pair whose reference times enclose `t` determines
a linear interpolation. -/
def bracketLoop (t : ℚ) : List SyncPoint → Option ℚ
  | p :: q :: rest =>
    if p.subtitleTime ≤ t ∧ t ≤ q.subtitleTime then
      some (p.audioTime + (t - p.subtitleTime) / (q.subtitleTime - p.subtitleTime) * (q.audioTime - p.audioTime))
    else bracketLoop t (q :: rest)
  | _ => none

/-- `interpolateTime` on the sorted sync point list: extrapolate below the
first point from the first two, extrapolate above the last point from the
last two (plain offset when only one point exists), otherwise interpolate
between the bracketing pair, falling back to `t` when no pair matches. -/
def interpolateTime (t : ℚ) (pts : List SyncPoint) : ℚ :=
  match pts with
  | [] => t
  | p1 :: rest =>
    if t ≤ p1.subtitleTime then
      match rest with
      | p2 :: _ =>
        p1.audioTime +
          (p2.audioTime - p1.audioTime) / (p2.subtitleTime - p1.subtitleTime) * (t - p1.subtitleTime)
      | [] => t + (p1.audioTime - p1.subtitleTime)
    else if ((p1 :: rest).getLast (List.cons_ne_nil p1 rest)).subtitleTime ≤ t then
      match (p1 :: rest).reverse with
      | q2 :: q1 :: _ =>
        q2.audioTime +
          (q2.audioTime - q1.audioTime) / (q2.subtitleTime - q1.subtitleTime) * (t - q2.subtitleTime)
      | _ => t + (p1.audioTime - p1.subtitleTime)
    else
      (bracketLoop t (p1 :: rest)).getD t

/-- Error-propagating map, modelling `Array.prototype.map` under a callback
that can throw. -/
def mapE {α β : Type} (f : α → Except SRTParseError β) : List α → Except SRTParseError (List β)
  | [] => .ok []
  | a :: as =>
    match f a with
    | .error e => .error e
    | .ok b =>
      match mapE f as with
      | .error e => .error e
      | .ok bs => .ok (b :: bs)

/-- The fallback branch of `applySyncCorrection` (fewer than two sync
points): shift both timestamps by `offsetMs`, clamp the start at 0 and the
end at start + 100 ms. -/
def correctEntrySimple (offsetMs : Int) (sub : SubtitleEntry) : Except SRTParseError SubtitleEntry :=
  match parseTimestamp sub.startTime, parseTimestamp sub.endTime with
  | .ok startMs, .ok endMs =>
    let adjustedStartMs := max 0 ((startMs : Int) + offsetMs)
    let adjustedEndMs := max (adjustedStartMs + 100) ((endMs : Int) + offsetMs)
    .ok { sub with startTime := formatTimestamp adjustedStartMs,
                   endTime := formatTimestamp adjustedEndMs }
  | .error e1, _ => .error e1
  | _, .error e2 => .error e2

/-- The interpolation branch of `applySyncCorrection`: both timestamps are
converted to seconds, mapped through `interpolateTime` and re-encoded after
`Math.round(x * 1000)`, with no clamping. -/
def correctEntryInterp (sorted : List SyncPoint) (sub : SubtitleEntry) :
    Except SRTParseError SubtitleEntry :=
  match convertSRTTimeToSeconds sub.startTime, convertSRTTimeToSeconds sub.endTime with
  | .ok sSec, .ok eSec =>
    .ok { sub with startTime := formatTimestamp (jsRound (interpolateTime sSec sorted * 1000)),
                   endTime := formatTimestamp (jsRound (interpolateTime eSec sorted * 1000)) }
  | .error e1, _ => .error e1
  | _, .error e2 => .error e2

/-- `applySyncCorrection`: with fewer than two sync points apply the single
scalar offset (0 when there is no point) with clamping; otherwise sort a copy
of the points by `subtitleTime` (a stable sort, as `Array.prototype.sort`)
and interpolate every entry's start and end. -/
def applySyncCorrection (syncPoints : List SyncPoint) (originalSubtitles : List SubtitleEntry) :
    Except SRTParseError (List SubtitleEntry) :=
  if syncPoints.length < 2 then
    let offsetMs : Int :=
      match syncPoints with
      | [sp] => jsRound ((sp.audioTime - sp.subtitleTime) * 1000)
      | _ => 0
    mapE (correctEntrySimple offsetMs) originalSubtitles
  else
    mapE (correctEntryInterp (List.insertionSort spLE syncPoints)) originalSubtitles

/-- The seconds value of a timestamp string, used to state theorems about the
interpolation branch. -/
def tsSeconds (s : Str) : ℚ := (tsValue s : ℚ) / 1000

/-- A canonical timestamp string: it matches the timestamp pattern and its
minutes and seconds fields are below 60, so re-encoding its value with
`formatTimestamp` reproduces the string. -/
def isCanonTs (s : Str) : Bool :=
  match matchTs s with
  | some (_, mm, ss, _) => mm < 60 && ss < 60
  | none => false

/-- The lines contributed by one entry to the output of `formatSRT`:
id line, timing line, the text lines, and one empty separator line. -/
def blockLines (e : SubtitleEntry) : List Str :=
  [intToStr e.id, timingLine e] ++ e.text ++ [[]]

/-- The line list of a non-empty document as `formatSRT` lays it out: every
entry contributes its `blockLines`, except that the final entry has no
trailing empty line (the join between blocks supplies the separators). -/
def frontLines : List SubtitleEntry → List Str
  | [] => []
  | [e] => [intToStr e.id, timingLine e] ++ e.text
  | e :: rest => blockLines e ++ frontLines rest

/-- Modelled from the spec sentence behind claim C8: for each entry emit the
id line, then a blank line, then the timing line, the text lines and a blank
separator line.  This differs from `formatSRT` by the blank line after the id. -/
def specC8FormatSRT (entries : List SubtitleEntry) : Str :=
  List.intercalate [nlChar]
    (entries.map (fun e =>
      List.intercalate [nlChar] ([intToStr e.id, [], timingLine e] ++ e.text ++ [[]])))

/-- Invariant of entries produced by `parseSRT`: both timestamps match the
timestamp pattern, and the text is a non-empty list of non-empty trimmed
lines without newline characters. -/
def wfEntry (e : SubtitleEntry) : Prop :=
  isTsStr e.startTime = true ∧ isTsStr e.endTime = true ∧ e.text ≠ [] ∧
    ∀ l ∈ e.text, l ≠ [] ∧ jsTrim l = l ∧ nlChar ∉ l

/-- Invariant of the parser state reached by `parseSRTAux` on any input:
recorded timestamps match the pattern and accumulated text lines are
non-empty trimmed lines without newlines. -/
def wfState : PState → Prop
  | .awaitingId => True
  | .awaitingTiming _ => True
  | .accText _ a b ts =>
    isTsStr a = true ∧ isTsStr b = true ∧ ∀ l ∈ ts, l ≠ [] ∧ jsTrim l = l ∧ nlChar ∉ l

/-! ### Digit and decimal-rendering lemmas -/

theorem digitVal_digitChar {n : Nat} (h : n < 10) : digitVal (digitChar n) = n := by
  interval_cases n <;> decide

theorem isDigitChar_digitChar {n : Nat} (h : n < 10) : isDigitChar (digitChar n) = true := by
  interval_cases n <;> decide

theorem toNat_of_isDigitChar {c : Char} (h : isDigitChar c = true) :
    48 ≤ c.toNat ∧ c.toNat ≤ 57 := by
  unfold isDigitChar at h
  simp only [Bool.and_eq_true, decide_eq_true_eq] at h
  exact h

theorem digitChar_digitVal {c : Char} (h : isDigitChar c = true) : digitChar (digitVal c) = c := by
  obtain ⟨h1, h2⟩ := toNat_of_isDigitChar h
  unfold digitChar digitVal
  rw [show 48 + (c.toNat - 48) = c.toNat by omega, Char.ofNat_toNat]

theorem not_ws_of_isDigitChar {c : Char} (h : isDigitChar c = true) : isWsChar c = false := by
  obtain ⟨h1, _⟩ := toNat_of_isDigitChar h
  unfold isWsChar
  simp only [Bool.or_eq_false_iff, decide_eq_false_iff_not]
  omega

theorem ne_nl_of_isDigitChar {c : Char} (h : isDigitChar c = true) : c ≠ nlChar := by
  intro hc
  obtain ⟨h1, _⟩ := toNat_of_isDigitChar h
  rw [hc] at h1
  simp [nlChar] at h1

theorem natToStrAux_fuel {f1 f2 n : Nat} (h1 : n < f1) (h2 : n < f2) :
    natToStrAux f1 n = natToStrAux f2 n := by
  induction n using Nat.strong_induction_on generalizing f1 f2 with
  | _ n ih =>
    cases f1 with
    | zero => omega
    | succ fa =>
      cases f2 with
      | zero => omega
      | succ fb =>
        simp only [natToStrAux]
        by_cases hn : n < 10
        · simp [hn]
        · have hd : n / 10 < n := Nat.div_lt_self (by omega) (by omega)
          rw [if_neg hn, if_neg hn, @ih (n / 10) hd fa fb (by omega) (by omega)]

theorem natToStr_unfold (n : Nat) :
    natToStr n = if n < 10 then [digitChar n] else natToStr (n / 10) ++ [digitChar (n % 10)] := by
  by_cases hn : n < 10
  · simp [natToStr, natToStrAux, hn]
  · rw [if_neg hn]
    show natToStrAux (n + 1) n = natToStrAux (n / 10 + 1) (n / 10) ++ [digitChar (n % 10)]
    simp only [natToStrAux, if_neg hn]
    rw [@natToStrAux_fuel n (n / 10 + 1) (n / 10) (by omega) (by omega)]
    simp only [natToStrAux]

theorem natToStr_ne_nil (n : Nat) : natToStr n ≠ [] := by
  rw [natToStr_unfold]
  by_cases hn : n < 10 <;> simp [hn]

theorem natToStr_all_digits (n : Nat) : ∀ c ∈ natToStr n, isDigitChar c = true := by
  induction n using Nat.strong_induction_on with
  | _ n ih =>
    intro c hc
    rw [natToStr_unfold] at hc
    by_cases hn : n < 10
    · rw [if_pos hn] at hc
      simp only [List.mem_singleton] at hc
      exact hc ▸ isDigitChar_digitChar hn
    · rw [if_neg hn] at hc
      rcases List.mem_append.1 hc with h | h
      · exact ih (n / 10) (Nat.div_lt_self (by omega) (by omega)) c h
      · simp only [List.mem_singleton] at h
        exact h ▸ isDigitChar_digitChar (Nat.mod_lt _ (by omega))

theorem parseDigits_append (s : Str) (c : Char) :
    parseDigits (s ++ [c]) = parseDigits s * 10 + digitVal c := by
  unfold parseDigits
  rw [List.foldl_append]
  rfl

theorem parseDigits_natToStr (n : Nat) : parseDigits (natToStr n) = n := by
  induction n using Nat.strong_induction_on with
  | _ n ih =>
    rw [natToStr_unfold]
    by_cases hn : n < 10
    · rw [if_pos hn]
      show 0 * 10 + digitVal (digitChar n) = n
      rw [digitVal_digitChar hn]; omega
    · rw [if_neg hn, parseDigits_append,
        ih (n / 10) (Nat.div_lt_self (by omega) (by omega)),
        digitVal_digitChar (Nat.mod_lt _ (by omega))]
      omega

theorem natToStr_length_of_lt_10 {n : Nat} (h : n < 10) : (natToStr n).length = 1 := by
  rw [natToStr_unfold, if_pos h]; rfl

theorem natToStr_eq_of_lt_100 {n : Nat} (h1 : 10 ≤ n) (h2 : n < 100) :
    natToStr n = [digitChar (n / 10), digitChar (n % 10)] := by
  rw [natToStr_unfold, if_neg (by omega), natToStr_unfold, if_pos (by omega)]
  rfl

theorem natToStr_length_ge_3 {n : Nat} (h : 100 ≤ n) : 3 ≤ (natToStr n).length := by
  rw [natToStr_unfold, if_neg (by omega), natToStr_unfold, if_neg (by omega)]
  have := natToStr_ne_nil (n / 10 / 10)
  simp only [List.length_append, List.length_singleton]
  have : 1 ≤ (natToStr (n / 10 / 10)).length := by
    cases hx : natToStr (n / 10 / 10) with
    | nil => exact absurd hx this
    | cons a l => simp
  omega

/-! ### Two- and three-digit padding -/

theorem padStart_two {n : Nat} (h : n < 100) :
    padStart (natToStr n) 2 = [digitChar (n / 10), digitChar (n % 10)] := by
  by_cases h1 : n < 10
  · rw [natToStr_unfold, if_pos h1]
    show List.replicate 1 '0' ++ [digitChar n] = _
    have e1 : digitChar (n / 10) = '0' := by rw [Nat.div_eq_of_lt h1]; rfl
    have e2 : n % 10 = n := Nat.mod_eq_of_lt h1
    rw [e1, e2]; rfl
  · rw [natToStr_eq_of_lt_100 (by omega) h]
    show List.replicate 0 '0' ++ _ = _
    rfl

theorem padStart_three {n : Nat} (h : n < 1000) :
    padStart (natToStr n) 3 =
      [digitChar (n / 100), digitChar (n / 10 % 10), digitChar (n % 10)] := by
  by_cases h1 : n < 10
  · rw [natToStr_unfold, if_pos h1]
    show List.replicate 2 '0' ++ [digitChar n] = _
    have e1 : digitChar (n / 100) = '0' := by rw [Nat.div_eq_of_lt (by omega)]; rfl
    have e2 : digitChar (n / 10 % 10) = '0' := by rw [Nat.div_eq_of_lt h1]; rfl
    have e3 : n % 10 = n := Nat.mod_eq_of_lt h1
    rw [e1, e2, e3]; rfl
  · by_cases h2 : n < 100
    · rw [natToStr_eq_of_lt_100 (by omega) h2]
      show List.replicate 1 '0' ++ _ = _
      have e1 : digitChar (n / 100) = '0' := by rw [Nat.div_eq_of_lt (by omega)]; rfl
      have e2 : n / 10 % 10 = n / 10 := Nat.mod_eq_of_lt (by omega)
      rw [e1, e2]; rfl
    · rw [natToStr_unfold, if_neg (by omega),
        natToStr_eq_of_lt_100 (by omega) (by omega)]
      show List.replicate (3 - _) '0' ++ _ = _
      have e1 : n / 10 / 10 = n / 100 := by omega
      have e2 : n / 10 % 10 = n / 10 % 10 := rfl
      rw [e1]
      rfl

/-! ### Timestamp format/parse lemmas -/

theorem intToStr_natCast (n : Nat) : intToStr (n : Int) = natToStr n := by
  unfold intToStr
  rw [if_neg (by omega), Int.toNat_natCast]

theorem parseDigits_two {x y : Nat} (hx : x < 10) (hy : y < 10) :
    parseDigits [digitChar x, digitChar y] = 10 * x + y := by
  show (0 * 10 + digitVal (digitChar x)) * 10 + digitVal (digitChar y) = 10 * x + y
  rw [digitVal_digitChar hx, digitVal_digitChar hy]
  omega

theorem parseDigits_three {x y z : Nat} (hx : x < 10) (hy : y < 10) (hz : z < 10) :
    parseDigits [digitChar x, digitChar y, digitChar z] = 100 * x + 10 * y + z := by
  show ((0 * 10 + digitVal (digitChar x)) * 10 + digitVal (digitChar y)) * 10 +
      digitVal (digitChar z) = 100 * x + 10 * y + z
  rw [digitVal_digitChar hx, digitVal_digitChar hy, digitVal_digitChar hz]
  omega

theorem fdiv_natCast (m k : Nat) : (m : Int).fdiv (k : Int) = ((m / k : Nat) : Int) := by
  rw [Int.fdiv_eq_ediv _ (by omega)]
  omega

theorem tmod_natCast (m k : Nat) : (m : Int).tmod (k : Int) = ((m % k : Nat) : Int) := by
  rw [Int.tmod_eq_emod (by omega) (by omega)]
  omega

/-- For inputs below 100 hours, `formatTimestamp` produces the canonical
twelve-character digit pattern. -/
theorem formatTimestamp_ofNat {m : Nat} (h : m < 360000000) :
    formatTimestamp (m : Int) =
      [digitChar (m / 3600000 / 10), digitChar (m / 3600000 % 10), ':',
       digitChar (m % 3600000 / 60000 / 10), digitChar (m % 3600000 / 60000 % 10), ':',
       digitChar (m % 60000 / 1000 / 10), digitChar (m % 60000 / 1000 % 10), ',',
       digitChar (m % 1000 / 100), digitChar (m % 1000 / 10 % 10), digitChar (m % 1000 % 10)] := by
  unfold formatTimestamp
  rw [show ((3600000 : Int)) = ((3600000 : Nat) : Int) by rfl]
  rw [show ((60000 : Int)) = ((60000 : Nat) : Int) by rfl]
  rw [show ((1000 : Int)) = ((1000 : Nat) : Int) by rfl]
  rw [fdiv_natCast, tmod_natCast, tmod_natCast, tmod_natCast]
  rw [fdiv_natCast, fdiv_natCast]
  rw [intToStr_natCast, intToStr_natCast, intToStr_natCast, intToStr_natCast]
  rw [padStart_two (show m / 3600000 < 100 by omega),
    padStart_two (show m % 3600000 / 60000 < 100 by omega),
    padStart_two (show m % 60000 / 1000 < 100 by omega),
    padStart_three (show m % 1000 < 1000 by omega)]
  rfl

/-- Parsing the canonical twelve-character pattern recovers the value. -/
theorem ts_roundtrip {m : Nat} (h : m < 360000000) :
    parseTimestamp (formatTimestamp (m : Int)) = .ok m := by
  rw [formatTimestamp_ofNat h]
  unfold parseTimestamp matchTs
  have d1 : m / 3600000 / 10 < 10 := by omega
  have d2 : m / 3600000 % 10 < 10 := by omega
  have d3 : m % 3600000 / 60000 / 10 < 10 := by omega
  have d4 : m % 3600000 / 60000 % 10 < 10 := by omega
  have d5 : m % 60000 / 1000 / 10 < 10 := by omega
  have d6 : m % 60000 / 1000 % 10 < 10 := by omega
  have d7 : m % 1000 / 100 < 10 := by omega
  have d8 : m % 1000 / 10 % 10 < 10 := by omega
  have d9 : m % 1000 % 10 < 10 := by omega
  simp only [isDigitChar_digitChar d1, isDigitChar_digitChar d2, isDigitChar_digitChar d3,
    isDigitChar_digitChar d4, isDigitChar_digitChar d5, isDigitChar_digitChar d6,
    isDigitChar_digitChar d7, isDigitChar_digitChar d8, isDigitChar_digitChar d9,
    Bool.and_self, if_pos]
  rw [parseDigits_two d1 d2, parseDigits_two d3 d4, parseDigits_two d5 d6,
    parseDigits_three d7 d8 d9]
  congr 1
  omega

theorem matchTs_length {s : Str} (h : (matchTs s).isSome = true) : s.length = 12 := by
  unfold matchTs at h
  split at h
  · rfl
  · simp at h

theorem parseTimestamp_ok_length {s : Str} {n : Nat} (h : parseTimestamp s = .ok n) :
    s.length = 12 := by
  unfold parseTimestamp at h
  cases hm : matchTs s with
  | some v => exact matchTs_length (by rw [hm]; rfl)
  | none => rw [hm] at h; exact absurd h (by simp)

theorem padStart_length_ge (s : Str) (w : Nat) : s.length ≤ (padStart s w).length := by
  unfold padStart
  simp only [List.length_append, List.length_replicate]
  omega

/-- Above 100 hours the formatted string is longer than twelve characters. -/
theorem formatTimestamp_length_ge_13 {m : Nat} (h : 360000000 ≤ m) :
    13 ≤ (formatTimestamp (m : Int)).length := by
  unfold formatTimestamp
  rw [show ((3600000 : Int)) = ((3600000 : Nat) : Int) by rfl]
  rw [show ((60000 : Int)) = ((60000 : Nat) : Int) by rfl]
  rw [show ((1000 : Int)) = ((1000 : Nat) : Int) by rfl]
  rw [fdiv_natCast, tmod_natCast, tmod_natCast, tmod_natCast]
  rw [fdiv_natCast, fdiv_natCast]
  rw [intToStr_natCast, intToStr_natCast, intToStr_natCast, intToStr_natCast]
  have h3 : 3 ≤ (natToStr (m / 3600000)).length := natToStr_length_ge_3 (by omega)
  have := padStart_length_ge (natToStr (m / 3600000)) 2
  simp only [List.length_append, List.length_cons]
  rw [padStart_two (show m % 3600000 / 60000 < 100 by omega),
    padStart_two (show m % 60000 / 1000 < 100 by omega),
    padStart_three (show m % 1000 < 1000 by omega)]
  simp only [List.length_cons, List.length_nil]
  omega

/-- Claim C5: for every non-negative integer `m` strictly below 359999999,
`parseTimestamp (formatTimestamp m)` succeeds and returns `m`. -/
theorem c5_timestamp_roundtrip (m : Nat) (h : m < 359999999) :
    parseTimestamp (formatTimestamp (m : Int)) = .ok m :=
  ts_roundtrip (by omega)

theorem c5_timestamp_roundtrip_witness :
    5025678 < 359999999 ∧ parseTimestamp (formatTimestamp ((5025678 : Nat) : Int)) = .ok 5025678 :=
  ⟨by decide, c5_timestamp_roundtrip 5025678 (by decide)⟩

/-- Claim C6, counterexample: at 100 hours the formatted timestamp gets
three hour digits and `parseTimestamp` rejects it, so the unbounded
round-trip claimed for all non-negative `m` fails at `m = 360000000`. -/
theorem c6_counterexample :
    formatTimestamp ((360000000 : Nat) : Int) = ("100:00:00,000").data ∧
    parseTimestamp (("100:00:00,000").data) ≠ .ok 360000000 ∧
    parseTimestamp (formatTimestamp ((360000000 : Nat) : Int)) ≠ .ok 360000000 :=
  ⟨by decide, by decide, by decide⟩

/-- Claim C6 (amended): `parseTimestamp` accepts only twelve-character
timestamps, i.e. exactly two hour digits, so the
`parseTimestamp (formatTimestamp m)` round-trip holds precisely for
`0 ≤ m < 360000000` (at most 99 hours), not for all non-negative `m`. -/
theorem c6_amended_roundtrip_iff :
    (∀ s : Str, ∀ n : Nat, parseTimestamp s = .ok n → s.length = 12) ∧
    (∀ m : Nat, parseTimestamp (formatTimestamp (m : Int)) = .ok m ↔ m < 360000000) := by
  refine ⟨fun s n h => parseTimestamp_ok_length h, fun m => ⟨fun h => ?_, fun h => ts_roundtrip h⟩⟩
  by_contra hm
  have h12 := parseTimestamp_ok_length h
  have h13 := formatTimestamp_length_ge_13 (m := m) (by omega)
  omega

theorem c6_amended_roundtrip_iff_witness :
    (("01:23:45,678").data).length = 12 ∧
    parseTimestamp (formatTimestamp ((123 : Nat) : Int)) = .ok 123 :=
  ⟨c6_amended_roundtrip_iff.1 (("01:23:45,678").data) 5025678 (by decide),
   (c6_amended_roundtrip_iff.2 123).mpr (by decide)⟩

/-! ### Characterisation of matched timestamps -/

theorem digitVal_lt {c : Char} (h : isDigitChar c = true) : digitVal c < 10 := by
  obtain ⟨h1, h2⟩ := toNat_of_isDigitChar h
  unfold digitVal
  omega

theorem parseDigits_pair (a b : Char) :
    parseDigits [a, b] = 10 * digitVal a + digitVal b := by
  show (0 * 10 + digitVal a) * 10 + digitVal b = _
  omega

theorem parseDigits_triple (a b c : Char) :
    parseDigits [a, b, c] = 100 * digitVal a + 10 * digitVal b + digitVal c := by
  show ((0 * 10 + digitVal a) * 10 + digitVal b) * 10 + digitVal c = _
  omega

theorem matchTs_eq_some {s : Str} {hh mm ss ms : Nat} (h : matchTs s = some (hh, mm, ss, ms)) :
    hh < 100 ∧ mm < 100 ∧ ss < 100 ∧ ms < 1000 ∧
      s = [digitChar (hh / 10), digitChar (hh % 10), ':',
           digitChar (mm / 10), digitChar (mm % 10), ':',
           digitChar (ss / 10), digitChar (ss % 10), ',',
           digitChar (ms / 100), digitChar (ms / 10 % 10), digitChar (ms % 10)] := by
  unfold matchTs at h
  split at h
  · split at h
    · rename_i a b c d e f g h9 k heq
      simp only [Bool.and_eq_true] at heq
      obtain ⟨⟨⟨⟨⟨⟨⟨⟨ha, hb⟩, hc⟩, hd⟩, he⟩, hf⟩, hg⟩, hh9⟩, hk⟩ := heq
      simp only [Option.some.injEq, Prod.mk.injEq] at h
      obtain ⟨h1, h2, h3, h4⟩ := h
      rw [parseDigits_pair] at h1 h2 h3
      rw [parseDigits_triple] at h4
      have va := digitVal_lt ha
      have vb := digitVal_lt hb
      have vc := digitVal_lt hc
      have vd := digitVal_lt hd
      have ve := digitVal_lt he
      have vf := digitVal_lt hf
      have vg := digitVal_lt hg
      have vh := digitVal_lt hh9
      have vk := digitVal_lt hk
      refine ⟨by omega, by omega, by omega, by omega, ?_⟩
      have ea : hh / 10 = digitVal a := by omega
      have eb : hh % 10 = digitVal b := by omega
      have ec : mm / 10 = digitVal c := by omega
      have ed : mm % 10 = digitVal d := by omega
      have ee : ss / 10 = digitVal e := by omega
      have ef : ss % 10 = digitVal f := by omega
      have eg : ms / 100 = digitVal g := by omega
      have eh : ms / 10 % 10 = digitVal h9 := by omega
      have ek : ms % 10 = digitVal k := by omega
      rw [ea, eb, ec, ed, ee, ef, eg, eh, ek,
        digitChar_digitVal ha, digitChar_digitVal hb, digitChar_digitVal hc,
        digitChar_digitVal hd, digitChar_digitVal he, digitChar_digitVal hf,
        digitChar_digitVal hg, digitChar_digitVal hh9, digitChar_digitVal hk]
    · exact absurd h (by simp)
  · exact absurd h (by simp)

theorem parseTimestamp_of_isTs {s : Str} (h : isTsStr s = true) :
    parseTimestamp s = .ok (tsValue s) := by
  unfold isTsStr at h
  cases hm : matchTs s with
  | some v =>
    obtain ⟨hh, mm, ss, ms⟩ := v
    unfold parseTimestamp tsValue
    rw [hm]
  | none => rw [hm] at h; simp at h

theorem tsValue_lt {s : Str} (h : isTsStr s = true) : tsValue s < 363000000 := by
  unfold isTsStr at h
  cases hm : matchTs s with
  | some v =>
    obtain ⟨hh, mm, ss, ms⟩ := v
    obtain ⟨b1, b2, b3, b4, _⟩ := matchTs_eq_some hm
    have hv : tsValue s = hh * 3600000 + mm * 60000 + ss * 1000 + ms := by
      unfold tsValue
      rw [hm]
    rw [hv]
    omega
  | none => rw [hm] at h; simp at h

theorem isTsStr_of_isCanonTs {s : Str} (h : isCanonTs s = true) : isTsStr s = true := by
  unfold isCanonTs at h
  unfold isTsStr
  cases hm : matchTs s with
  | some v => rfl
  | none => rw [hm] at h; simp at h

/-- Re-encoding the value of a canonical timestamp reproduces the string. -/
theorem format_tsValue {s : Str} (h : isCanonTs s = true) :
    formatTimestamp ((tsValue s : Nat) : Int) = s := by
  unfold isCanonTs at h
  cases hm : matchTs s with
  | some v =>
    obtain ⟨hh, mm, ss, ms⟩ := v
    rw [hm] at h
    simp only [Bool.and_eq_true, decide_eq_true_eq] at h
    obtain ⟨hmm, hss⟩ := h
    obtain ⟨b1, b2, b3, b4, hs⟩ := matchTs_eq_some hm
    have hv : tsValue s = hh * 3600000 + mm * 60000 + ss * 1000 + ms := by
      unfold tsValue
      rw [hm]
    rw [hv, formatTimestamp_ofNat (by omega), hs]
    have e1 : (hh * 3600000 + mm * 60000 + ss * 1000 + ms) / 3600000 = hh := by omega
    have e2 : (hh * 3600000 + mm * 60000 + ss * 1000 + ms) % 3600000 / 60000 = mm := by omega
    have e3 : (hh * 3600000 + mm * 60000 + ss * 1000 + ms) % 60000 / 1000 = ss := by omega
    have e4 : (hh * 3600000 + mm * 60000 + ss * 1000 + ms) % 1000 = ms := by omega
    rw [e1, e2, e3, e4]
  | none => rw [hm] at h; simp at h

/-! ### Error-propagating map -/

theorem mapE_congr_ok {α β : Type} (f : α → Except SRTParseError β) (g : α → β) (l : List α)
    (h : ∀ a ∈ l, f a = .ok (g a)) : mapE f l = .ok (l.map g) := by
  induction l with
  | nil => rfl
  | cons a as ih =>
    unfold mapE
    rw [h a (by simp), ih (fun x hx => h x (by simp [hx]))]
    rfl

theorem mapE_id {α : Type} (f : α → Except SRTParseError α) (l : List α)
    (h : ∀ a ∈ l, f a = .ok a) : mapE f l = .ok l := by
  have := mapE_congr_ok f id l h
  simpa using this

theorem mapE_ok_of {α β : Type} (f : α → Except SRTParseError β) (l : List α)
    (h : ∀ a ∈ l, ∃ b, f a = .ok b) : ∃ bs, mapE f l = .ok bs := by
  induction l with
  | nil => exact ⟨[], rfl⟩
  | cons a as ih =>
    obtain ⟨b, hb⟩ := h a (by simp)
    obtain ⟨bs, hbs⟩ := ih (fun x hx => h x (by simp [hx]))
    refine ⟨b :: bs, ?_⟩
    unfold mapE
    rw [hb, hbs]

/-! ### The fallback branch of applySyncCorrection -/

theorem convertSRTTimeToSeconds_of_isTs {s : Str} (h : isTsStr s = true) :
    convertSRTTimeToSeconds s = .ok (tsSeconds s) := by
  unfold convertSRTTimeToSeconds tsSeconds
  rw [parseTimestamp_of_isTs h]
  rfl

theorem correctEntrySimple_zero {e : SubtitleEntry}
    (h1 : isCanonTs e.startTime = true) (h2 : isCanonTs e.endTime = true)
    (h3 : tsValue e.startTime + 100 ≤ tsValue e.endTime) :
    correctEntrySimple 0 e = .ok e := by
  obtain ⟨i, st, en, tx⟩ := e
  simp only at h1 h2 h3
  unfold correctEntrySimple
  rw [parseTimestamp_of_isTs (isTsStr_of_isCanonTs h1),
    parseTimestamp_of_isTs (isTsStr_of_isCanonTs h2)]
  simp only [Except.ok.injEq, SubtitleEntry.mk.injEq]
  refine ⟨trivial, ?_, ?_, trivial⟩
  · rw [show max 0 ((tsValue st : Int) + 0) = ((tsValue st : Nat) : Int) by omega]
    exact format_tsValue h1
  · rw [show max (max 0 ((tsValue st : Int) + 0) + 100) ((tsValue en : Int) + 0) =
      ((tsValue en : Nat) : Int) by omega]
    exact format_tsValue h2

/-- Claim C4, counterexample: on a well-formed entry lasting only 50 ms, the
empty-sync-point correction does not return the entries unchanged — the
clamp `end ≥ start + 100 ms` rewrites the end time. -/
theorem c4_counterexample :
    applySyncCorrection [] [⟨1, ("00:00:00,000").data, ("00:00:00,050").data, [("Hi").data]⟩] =
      .ok [⟨1, ("00:00:00,000").data, ("00:00:00,100").data, [("Hi").data]⟩] ∧
    applySyncCorrection [] [⟨1, ("00:00:00,000").data, ("00:00:00,050").data, [("Hi").data]⟩] ≠
      .ok [⟨1, ("00:00:00,000").data, ("00:00:00,050").data, [("Hi").data]⟩] :=
  ⟨by decide, by decide⟩

/-- Claim C4 (amended): `applyCorrection(E, [])` succeeds and returns entries
equal to `E` provided every entry has canonical timestamps and duration at
least 100 ms; entries with a shorter duration get their end clamped to
start + 100 ms, and malformed timestamp strings make the call throw. -/
theorem c4_amended_noop (E : List SubtitleEntry)
    (h : ∀ e ∈ E, isCanonTs e.startTime = true ∧ isCanonTs e.endTime = true ∧
        tsValue e.startTime + 100 ≤ tsValue e.endTime) :
    applySyncCorrection [] E = .ok E := by
  have he : applySyncCorrection [] E = mapE (correctEntrySimple 0) E := rfl
  rw [he]
  exact mapE_id _ E (fun a ha => correctEntrySimple_zero (h a ha).1 (h a ha).2.1 (h a ha).2.2)

theorem c4_amended_noop_witness :
    applySyncCorrection [] [⟨1, ("00:00:01,000").data, ("00:00:04,000").data, [("Hi").data]⟩] =
      .ok [⟨1, ("00:00:01,000").data, ("00:00:04,000").data, [("Hi").data]⟩] :=
  c4_amended_noop _ (by decide)

theorem correctEntrySimple_isOk {off : Int} {e : SubtitleEntry}
    (h1 : isTsStr e.startTime = true) (h2 : isTsStr e.endTime = true) :
    ∃ b, correctEntrySimple off e = .ok b := by
  unfold correctEntrySimple
  rw [parseTimestamp_of_isTs h1, parseTimestamp_of_isTs h2]
  exact ⟨_, rfl⟩

theorem correctEntryInterp_isOk {sorted : List SyncPoint} {e : SubtitleEntry}
    (h1 : isTsStr e.startTime = true) (h2 : isTsStr e.endTime = true) :
    ∃ b, correctEntryInterp sorted e = .ok b := by
  unfold correctEntryInterp
  rw [convertSRTTimeToSeconds_of_isTs h1, convertSRTTimeToSeconds_of_isTs h2]
  exact ⟨_, rfl⟩

/-- Claim C7, counterexample: `applyCorrection` does throw when an entry's
start time string is not a valid timestamp — even with no sync points, the
fallback branch re-parses every entry's timestamps. -/
theorem c7_counterexample :
    applySyncCorrection [] [⟨1, ("oops").data, ("00:00:01,000").data, [("x").data]⟩] =
      .error ⟨("Invalid timestamp format: ").data ++ ("oops").data, none⟩ := by
  decide

/-- Claim C7 (amended): `formatSRT` is total in this model, and
`applySyncCorrection` never throws for any sync point set provided every
entry's start and end strings match the timestamp pattern; with a malformed
timestamp string it throws the `parseTimestamp` error. -/
theorem c7_amended_no_throw (pts : List SyncPoint) (E : List SubtitleEntry)
    (h : ∀ e ∈ E, isTsStr e.startTime = true ∧ isTsStr e.endTime = true) :
    ∃ res, applySyncCorrection pts E = .ok res := by
  unfold applySyncCorrection
  split
  · exact mapE_ok_of _ E (fun a ha => correctEntrySimple_isOk (h a ha).1 (h a ha).2)
  · exact mapE_ok_of _ E (fun a ha => correctEntryInterp_isOk (h a ha).1 (h a ha).2)

theorem c7_amended_no_throw_witness :
    ∃ res, applySyncCorrection [⟨[], 2, 1, 1⟩]
      [⟨1, ("00:00:01,000").data, ("00:00:04,000").data, [("Hi").data]⟩] = .ok res :=
  c7_amended_no_throw _ _ (by decide)

/-! ### Rounding -/

theorem jsRound_intCast (k : Int) : jsRound ((k : ℚ)) = k := by
  unfold jsRound
  rw [add_comm, Int.floor_add_int]
  norm_num

theorem jsRound_thousandth_diff (aMs rMs : Int) :
    jsRound (((aMs : ℚ) / 1000 - (rMs : ℚ) / 1000) * 1000) = aMs - rMs := by
  have h : ((aMs : ℚ) / 1000 - (rMs : ℚ) / 1000) * 1000 = ((aMs - rMs : Int) : ℚ) := by
    push_cast
    ring
  rw [h, jsRound_intCast]

/-! ### The single-sync-point branch -/

theorem correctEntrySimple_eq {off : Int} {e : SubtitleEntry}
    (h1 : isTsStr e.startTime = true) (h2 : isTsStr e.endTime = true) :
    correctEntrySimple off e = .ok
      { e with startTime := formatTimestamp (max 0 ((tsValue e.startTime : Int) + off)),
               endTime := formatTimestamp (max (max 0 ((tsValue e.startTime : Int) + off) + 100)
                            ((tsValue e.endTime : Int) + off)) } := by
  unfold correctEntrySimple
  rw [parseTimestamp_of_isTs h1, parseTimestamp_of_isTs h2]

/-- Claim C3: with exactly one sync point, `applySyncCorrection` adds the
single scalar offset `targetTime − referenceTime` (in milliseconds) to every
entry's start and end, then clamps the start at 0 and the end at
start + 100 ms; id and text are unchanged.  The sync point's times are given
in seconds at millisecond resolution (`aMs`/`rMs` are the target and
reference times in milliseconds). -/
theorem c3_single_point_offset (sp : SyncPoint) (E : List SubtitleEntry) (aMs rMs : Int)
    (ha : sp.audioTime = (aMs : ℚ) / 1000) (hr : sp.subtitleTime = (rMs : ℚ) / 1000)
    (h : ∀ e ∈ E, isTsStr e.startTime = true ∧ isTsStr e.endTime = true) :
    applySyncCorrection [sp] E = .ok (E.map (fun e =>
      { e with startTime := formatTimestamp (max 0 ((tsValue e.startTime : Int) + (aMs - rMs))),
               endTime := formatTimestamp
                 (max (max 0 ((tsValue e.startTime : Int) + (aMs - rMs)) + 100)
                      ((tsValue e.endTime : Int) + (aMs - rMs))) })) := by
  have he : applySyncCorrection [sp] E =
      mapE (correctEntrySimple (jsRound ((sp.audioTime - sp.subtitleTime) * 1000))) E := rfl
  rw [he, ha, hr, jsRound_thousandth_diff]
  exact mapE_congr_ok _ _ E (fun a ha' => correctEntrySimple_eq (h a ha').1 (h a ha').2)

theorem c3_single_point_offset_witness :
    applySyncCorrection [(⟨[], (1500 : ℚ) / 1000, (1000 : ℚ) / 1000, 1⟩ : SyncPoint)]
      [(⟨1, ("00:00:01,000").data, ("00:00:02,000").data, [("Hi").data]⟩ : SubtitleEntry)] =
    .ok ([(⟨1, ("00:00:01,000").data, ("00:00:02,000").data, [("Hi").data]⟩ : SubtitleEntry)].map
      (fun e : SubtitleEntry =>
      { e with startTime := formatTimestamp (max 0 ((tsValue e.startTime : Int) + (1500 - 1000))),
               endTime := formatTimestamp
                 (max (max 0 ((tsValue e.startTime : Int) + (1500 - 1000)) + 100)
                      ((tsValue e.endTime : Int) + (1500 - 1000))) })) :=
  c3_single_point_offset _ _ 1500 1000 rfl rfl (by decide)

/-! ### Layout of formatSRT -/

theorem intercalate_singleton (s x : Str) : List.intercalate s [x] = x := by
  simp [List.intercalate]

theorem intercalate_cons2 (s x y : Str) (r : List Str) :
    List.intercalate s (x :: y :: r) = x ++ s ++ List.intercalate s (y :: r) := by
  simp [List.intercalate, List.intersperse]

theorem intercalate_append_ne_nil (s : Str) (A B : List Str) (hA : A ≠ []) (hB : B ≠ []) :
    List.intercalate s (A ++ B) = List.intercalate s A ++ s ++ List.intercalate s B := by
  induction A with
  | nil => exact absurd rfl hA
  | cons x xs ih =>
    cases xs with
    | nil =>
      cases B with
      | nil => exact absurd rfl hB
      | cons b bs => rw [intercalate_singleton]; exact intercalate_cons2 s x b bs
    | cons y ys =>
      have h2 := ih (by simp)
      have e1 : (x :: y :: ys) ++ B = x :: ((y :: ys) ++ B) := rfl
      rw [e1]
      have e2 : (y :: ys) ++ B = y :: (ys ++ B) := rfl
      rw [e2, intercalate_cons2, ← e2, h2, intercalate_cons2]
      simp [List.append_assoc]

theorem blockLines_ne_nil (e : SubtitleEntry) : blockLines e ≠ [] := by
  unfold blockLines
  simp

theorem flatMap_blockLines_ne_nil (e : SubtitleEntry) (rest : List SubtitleEntry) :
    (e :: rest).flatMap blockLines ≠ [] := by
  have h := blockLines_ne_nil e
  simp only [List.flatMap_cons]
  intro hc
  rw [List.append_eq_nil] at hc
  exact h hc.1

theorem formatSRT_eq_intercalate (E : List SubtitleEntry) :
    formatSRT E = List.intercalate [nlChar] (E.flatMap blockLines) := by
  induction E with
  | nil => rfl
  | cons e rest ih =>
    cases rest with
    | nil =>
      show List.intercalate [nlChar] [List.intercalate [nlChar] (blockLines e)] = _
      rw [intercalate_singleton]
      simp [blockLines]
    | cons e2 rest2 =>
      have hstep : formatSRT (e :: e2 :: rest2) =
          List.intercalate [nlChar] (blockLines e) ++ [nlChar] ++ formatSRT (e2 :: rest2) := by
        show List.intercalate [nlChar]
            (List.intercalate [nlChar] (blockLines e) ::
              List.intercalate [nlChar] (blockLines e2) ::
                rest2.map (fun x => List.intercalate [nlChar] (blockLines x))) = _
        rw [intercalate_cons2]
        rfl
      rw [hstep, ih]
      conv_rhs => rw [List.flatMap_cons]
      rw [intercalate_append_ne_nil _ _ _ (blockLines_ne_nil e) (flatMap_blockLines_ne_nil e2 rest2)]

/-! ### Splitting on newlines -/

theorem splitOnNl_cons (c : Char) (cs : Str) :
    splitOnNl (c :: cs) =
      if c = nlChar then [] :: splitOnNl cs else (splitOnNl cs).modifyHead (c :: ·) := rfl

theorem splitOnNl_no_nl {l : Str} (h : nlChar ∉ l) : splitOnNl l = [l] := by
  induction l with
  | nil => rfl
  | cons c cs ih =>
    rw [splitOnNl_cons, if_neg (fun hc => h (by simp [hc])),
      ih (fun hm => h (by simp [hm]))]
    rfl

theorem splitOnNl_append {l r : Str} (h : nlChar ∉ l) :
    splitOnNl (l ++ nlChar :: r) = l :: splitOnNl r := by
  induction l with
  | nil =>
    show splitOnNl (nlChar :: r) = [] :: splitOnNl r
    rw [splitOnNl_cons, if_pos rfl]
  | cons c cs ih =>
    show splitOnNl (c :: (cs ++ nlChar :: r)) = _
    rw [splitOnNl_cons, if_neg (fun hc => h (by simp [hc])),
      ih (fun hm => h (by simp [hm]))]
    rfl

theorem splitOnNl_intercalate (lines : List Str) (hne : lines ≠ [])
    (h : ∀ l ∈ lines, nlChar ∉ l) :
    splitOnNl (List.intercalate [nlChar] lines) = lines := by
  induction lines with
  | nil => exact absurd rfl hne
  | cons l rest ih =>
    cases rest with
    | nil =>
      rw [intercalate_singleton]
      exact splitOnNl_no_nl (h l (by simp))
    | cons l2 rest2 =>
      rw [intercalate_cons2,
        show l ++ [nlChar] ++ List.intercalate [nlChar] (l2 :: rest2) =
          l ++ nlChar :: List.intercalate [nlChar] (l2 :: rest2) by simp,
        splitOnNl_append (h l (by simp)), ih (by simp) (fun x hx => h x (by simp [hx]))]

theorem nl_not_mem_natToStr (n : Nat) : nlChar ∉ natToStr n := by
  intro hm
  have := natToStr_all_digits n nlChar hm
  exact absurd this (by decide)

theorem nl_not_mem_intToStr (i : Int) : nlChar ∉ intToStr i := by
  unfold intToStr
  split
  · intro hm
    rcases List.mem_cons.1 hm with h | h
    · exact absurd h (by decide)
    · exact nl_not_mem_natToStr _ h
  · exact nl_not_mem_natToStr _

theorem nl_not_mem_timingLine {e : SubtitleEntry}
    (h1 : nlChar ∉ e.startTime) (h2 : nlChar ∉ e.endTime) : nlChar ∉ timingLine e := by
  unfold timingLine
  intro hm
  rcases List.mem_append.1 hm with hmm | hmm
  · rcases List.mem_append.1 hmm with h3 | h3
    · exact h1 h3
    · exact absurd h3 (by decide)
  · exact h2 hmm

/-- Claim C8, counterexample: `formatSRT` emits the timing line directly
after the id line, with no blank line in between, so its output differs from
the layout stated by the claim (modelled by `specC8FormatSRT`). -/
theorem c8_counterexample :
    formatSRT [(⟨1, ("00:00:00,000").data, ("00:00:01,000").data,
        [("Hi").data]⟩ : SubtitleEntry)] =
      ("1\n00:00:00,000 --> 00:00:01,000\nHi\n").data ∧
    formatSRT [(⟨1, ("00:00:00,000").data, ("00:00:01,000").data,
        [("Hi").data]⟩ : SubtitleEntry)] ≠
      specC8FormatSRT [(⟨1, ("00:00:00,000").data, ("00:00:01,000").data,
        [("Hi").data]⟩ : SubtitleEntry)] :=
  ⟨by decide, by decide⟩

/-- Claim C8 (amended): for every non-empty entry list whose strings contain
no newline characters, `formatSRT` emits for each entry in order its id line,
then immediately the `start --> end` timing line (no blank line after the
id), then each text line, then one blank separator line: splitting the
output on newlines yields exactly the concatenation of every entry's
`blockLines`. -/
theorem c8_amended_layout (E : List SubtitleEntry) (hne : E ≠ [])
    (h : ∀ e ∈ E, nlChar ∉ e.startTime ∧ nlChar ∉ e.endTime ∧ ∀ l ∈ e.text, nlChar ∉ l) :
    splitOnNl (formatSRT E) = E.flatMap blockLines := by
  rw [formatSRT_eq_intercalate]
  apply splitOnNl_intercalate
  · cases E with
    | nil => exact absurd rfl hne
    | cons e rest => exact flatMap_blockLines_ne_nil e rest
  · intro l hl
    rw [List.mem_flatMap] at hl
    obtain ⟨e, he, hle⟩ := hl
    obtain ⟨h1, h2, h3⟩ := h e he
    unfold blockLines at hle
    rcases List.mem_append.1 hle with hm | hm
    · rcases List.mem_append.1 hm with hm2 | hm2
      · rcases List.mem_cons.1 hm2 with h4 | h4
        · exact h4 ▸ nl_not_mem_intToStr e.id
        · rcases List.mem_cons.1 h4 with h5 | h5
          · exact h5 ▸ nl_not_mem_timingLine h1 h2
          · exact absurd h5 (by simp)
      · exact h3 l hm2
    · rw [List.mem_singleton] at hm
      rw [hm]
      simp

theorem c8_amended_layout_witness :
    splitOnNl (formatSRT [(⟨1, ("00:00:00,000").data, ("00:00:01,000").data,
        [("Hi").data]⟩ : SubtitleEntry)]) =
      [(⟨1, ("00:00:00,000").data, ("00:00:01,000").data,
        [("Hi").data]⟩ : SubtitleEntry)].flatMap blockLines :=
  c8_amended_layout _ (by decide) (by decide)

/-! ### Trimming -/

theorem trimL_cons (c : Char) (s : Str) :
    trimL (c :: s) = if isWsChar c = true then trimL s else c :: s := by
  simp [trimL, List.dropWhile_cons]

theorem trimL_eq_self {s : Str} (h : ∀ c, s.head? = some c → isWsChar c = false) :
    trimL s = s := by
  cases s with
  | nil => rfl
  | cons c cs => rw [trimL_cons, if_neg (by simp [h c rfl])]

theorem trimR_eq_self {s : Str} (h : ∀ c, s.getLast? = some c → isWsChar c = false) :
    trimR s = s := by
  unfold trimR
  cases hr : s.reverse with
  | nil =>
    have : s = [] := by simpa using congrArg List.reverse hr
    rw [this]
    rfl
  | cons c cs =>
    have hc : s.getLast? = some c := by
      rw [← List.head?_reverse, hr]
      rfl
    rw [List.dropWhile_cons, if_neg (by simp [h c hc]), ← hr, List.reverse_reverse]

theorem trimL_suffix (s : Str) : trimL s <:+ s := List.dropWhile_suffix _

theorem trimR_prefix (s : Str) : trimR s <+: s := by
  obtain ⟨t, ht⟩ := List.dropWhile_suffix (l := s.reverse) isWsChar
  exact ⟨t.reverse, by rw [show trimR s = (List.dropWhile isWsChar s.reverse).reverse from rfl,
    ← List.reverse_append, ht, List.reverse_reverse]⟩

theorem jsTrim_within (s : Str) : jsTrim s <:+: s :=
  List.infix_iff_prefix_suffix.mpr ⟨trimL s, trimR_prefix (trimL s), trimL_suffix s⟩

theorem mem_of_mem_jsTrim {s : Str} {c : Char} (h : c ∈ jsTrim s) : c ∈ s :=
  List.IsInfix.mem h (jsTrim_within s)

theorem head?_trimL_not_ws : ∀ {s : Str} {c : Char},
    (trimL s).head? = some c → isWsChar c = false := by
  intro s
  induction s with
  | nil => intro c h; simp [trimL] at h
  | cons x xs ih =>
    intro c h
    rw [trimL_cons] at h
    by_cases hx : isWsChar x = true
    · rw [if_pos hx] at h
      exact ih h
    · rw [if_neg hx] at h
      simp only [List.head?_cons, Option.some.injEq] at h
      rw [← h]
      simpa using hx

theorem getLast?_trimR_not_ws {s : Str} {c : Char}
    (h : (trimR s).getLast? = some c) : isWsChar c = false := by
  rw [show trimR s = (List.dropWhile isWsChar s.reverse).reverse from rfl,
    List.getLast?_reverse] at h
  exact head?_trimL_not_ws (s := s.reverse) h

theorem head?_jsTrim_not_ws {s : Str} {c : Char}
    (h : (jsTrim s).head? = some c) : isWsChar c = false := by
  obtain ⟨t, ht⟩ := trimR_prefix (trimL s)
  have hne : trimR (trimL s) ≠ [] := by
    intro hc
    have hc2 : jsTrim s = [] := hc
    rw [hc2] at h
    simp at h
  have h2 : (trimL s).head? = some c := by
    rw [← ht, List.head?_append_of_ne_nil _ hne]
    exact h
  exact head?_trimL_not_ws h2

theorem getLast?_jsTrim_not_ws {s : Str} {c : Char}
    (h : (jsTrim s).getLast? = some c) : isWsChar c = false :=
  getLast?_trimR_not_ws h

theorem jsTrim_eq_self {s : Str} (hh : ∀ c, s.head? = some c → isWsChar c = false)
    (hl : ∀ c, s.getLast? = some c → isWsChar c = false) : jsTrim s = s := by
  show trimR (trimL s) = s
  rw [trimL_eq_self hh, trimR_eq_self hl]

theorem jsTrim_idem (s : Str) : jsTrim (jsTrim s) = jsTrim s :=
  jsTrim_eq_self (fun _ h => head?_jsTrim_not_ws h) (fun _ h => getLast?_jsTrim_not_ws h)

theorem jsTrim_all_nonws {s : Str} (h : ∀ c ∈ s, isWsChar c = false) : jsTrim s = s :=
  jsTrim_eq_self (fun c hc => h c (List.mem_of_mem_head? (by simp [hc])))
    (fun c hc => h c (List.mem_of_mem_getLast? (by simp [hc])))

/-! ### parseInt round-trip on rendered integers -/

theorem intToStr_all_nonws (i : Int) : ∀ c ∈ intToStr i, isWsChar c = false := by
  unfold intToStr
  split
  · intro c hc
    rcases List.mem_cons.1 hc with h | h
    · rw [h]
      decide
    · exact not_ws_of_isDigitChar (natToStr_all_digits _ _ h)
  · intro c hc
    exact not_ws_of_isDigitChar (natToStr_all_digits _ _ hc)

theorem intToStr_ne_nil (i : Int) : intToStr i ≠ [] := by
  unfold intToStr
  split
  · simp
  · exact natToStr_ne_nil _

theorem jsTrim_intToStr (i : Int) : jsTrim (intToStr i) = intToStr i :=
  jsTrim_all_nonws (intToStr_all_nonws i)

theorem jsParseNat_natToStr (n : Nat) : jsParseNat (natToStr n) = some n := by
  have hd := natToStr_all_digits n
  unfold jsParseNat
  split
  · rename_i rest heq
    have hx : isDigitChar 'x' = true := hd 'x' (by rw [heq]; simp)
    exact absurd hx (by decide)
  · rename_i rest heq
    have hx : isDigitChar 'X' = true := hd 'X' (by rw [heq]; simp)
    exact absurd hx (by decide)
  · have ht : (natToStr n).takeWhile isDigitChar = natToStr n :=
      List.takeWhile_eq_self_iff.mpr hd
    simp only [ht, natToStr_ne_nil n, if_neg, ite_false]
    rw [parseDigits_natToStr]

theorem dropWhile_ws_intToStr (i : Int) :
    (intToStr i).dropWhile isWsChar = intToStr i := by
  have h := jsTrim_intToStr i
  cases hs : intToStr i with
  | nil => rfl
  | cons c cs =>
    rw [List.dropWhile_cons,
      if_neg (by simp [intToStr_all_nonws i c (by rw [hs]; simp)])]

theorem jsParseInt_intToStr (i : Int) : jsParseInt (intToStr i) = some i := by
  unfold jsParseInt
  rw [dropWhile_ws_intToStr]
  by_cases hneg : i < 0
  · have hs : intToStr i = '-' :: natToStr i.natAbs := by
      unfold intToStr
      rw [if_pos hneg]
    rw [hs]
    show (jsParseNat (natToStr i.natAbs)).map (fun n => -(n : Int)) = some i
    rw [jsParseNat_natToStr]
    show some (-((i.natAbs : Nat) : Int)) = some i
    congr 1
    omega
  · have hs : intToStr i = natToStr i.toNat := by
      unfold intToStr
      rw [if_neg hneg]
    rw [hs]
    cases hns : natToStr i.toNat with
    | nil => exact absurd hns (natToStr_ne_nil _)
    | cons d ds =>
      have hd : isDigitChar d = true := natToStr_all_digits _ d (by rw [hns]; simp)
      have hd48 := toNat_of_isDigitChar hd
      split
      · rename_i rest heq
        have hde : d = '-' := by
          have := congrArg List.head? heq
          simpa using this
        have : d.toNat = 45 := by rw [hde]; decide
        omega
      · rename_i rest heq
        have hde : d = '+' := by
          have := congrArg List.head? heq
          simpa using this
        have : d.toNat = 43 := by rw [hde]; decide
        omega
      · rw [← hns, jsParseNat_natToStr]
        show some (((i.toNat : Nat) : Int)) = some i
        congr 1
        omega

/-! ### Timing lines -/

theorem isTsStr_nonws {s : Str} (h : isTsStr s = true) : ∀ c ∈ s, isWsChar c = false := by
  unfold isTsStr at h
  cases hm : matchTs s with
  | none => rw [hm] at h; simp at h
  | some v =>
    obtain ⟨hh, mm, ss, ms⟩ := v
    obtain ⟨b1, b2, b3, b4, hs⟩ := matchTs_eq_some hm
    intro c hc
    rw [hs] at hc
    simp only [List.mem_cons, List.not_mem_nil, or_false] at hc
    rcases hc with h1 | h1 | h1 | h1 | h1 | h1 | h1 | h1 | h1 | h1 | h1 | h1 <;> rw [h1] <;>
      first
      | decide
      | exact not_ws_of_isDigitChar (isDigitChar_digitChar (by omega))

theorem isTsStr_no_nl {s : Str} (h : isTsStr s = true) : nlChar ∉ s := by
  intro hm
  have := isTsStr_nonws h nlChar hm
  exact absurd this (by decide)

theorem isTsStr_ne_nil {s : Str} (h : isTsStr s = true) : s ≠ [] := by
  intro hc
  rw [hc] at h
  exact absurd h (by decide)

theorem jsTrim_timingLine {st en : Str} (h1 : isTsStr st = true) (h2 : isTsStr en = true) :
    jsTrim (st ++ arrowSep ++ en) = st ++ arrowSep ++ en := by
  apply jsTrim_eq_self
  · intro c hc
    rw [List.append_assoc, List.head?_append_of_ne_nil _ (isTsStr_ne_nil h1)] at hc
    exact isTsStr_nonws h1 c (List.mem_of_mem_head? (by simp [hc]))
  · intro c hc
    rw [List.getLast?_append_of_ne_nil _ (isTsStr_ne_nil h2)] at hc
    exact isTsStr_nonws h2 c (List.mem_of_mem_getLast? (by simp [hc]))

theorem timingLine_ne_nil (st en : Str) : st ++ arrowSep ++ en ≠ [] := by
  intro hc
  rw [List.append_eq_nil, List.append_eq_nil] at hc
  have : arrowSep ≠ [] := by decide
  exact this hc.1.2


/-! ### Single steps of the parser loop -/

theorem step_blank_awaitingId (raw : Str) (h : jsTrim raw = []) (rest : List Str) (ln : Nat)
    (acc : List SubtitleEntry) :
    parseSRTAux (raw :: rest) ln .awaitingId acc = parseSRTAux rest (ln + 1) .awaitingId acc := by
  rw [parseSRTAux.eq_4, if_pos h]

theorem step_blank_accNil (raw : Str) (h : jsTrim raw = []) (i : Int) (a b : Str)
    (rest : List Str) (ln : Nat) (acc : List SubtitleEntry) :
    parseSRTAux (raw :: rest) ln (.accText i a b []) acc =
      parseSRTAux rest (ln + 1) (.accText i a b []) acc := by
  rw [parseSRTAux.eq_6 _ _ _ _ _ _ _ _ (by intro j a4 c t ts hq; simp at hq), if_pos h]

theorem step_blank_flush (raw : Str) (h : jsTrim raw = []) (i : Int) (a b t : Str)
    (ts : List Str) (rest : List Str) (ln : Nat) (acc : List SubtitleEntry) :
    parseSRTAux (raw :: rest) ln (.accText i a b (t :: ts)) acc =
      parseSRTAux rest (ln + 1) .awaitingId (acc ++ [⟨i, a, b, t :: ts⟩]) := by
  rw [parseSRTAux.eq_3, if_pos h]

theorem step_id (raw : Str) {i : Int} (h : jsTrim raw ≠ [])
    (hid : jsParseInt (jsTrim raw) = some i) (rest : List Str) (ln : Nat)
    (acc : List SubtitleEntry) :
    parseSRTAux (raw :: rest) ln .awaitingId acc =
      parseSRTAux rest (ln + 1) (.awaitingTiming i) acc := by
  rw [parseSRTAux.eq_4, if_neg h]
  simp only [hid]

theorem step_timing (raw : Str) {a b : Str} (i : Int) (h : jsTrim raw ≠ [])
    (hmt : matchTimingLine (jsTrim raw) = some (a, b))
    (ha : isTsStr a = true) (hb : isTsStr b = true) (rest : List Str) (ln : Nat)
    (acc : List SubtitleEntry) :
    parseSRTAux (raw :: rest) ln (.awaitingTiming i) acc =
      parseSRTAux rest (ln + 1) (.accText i a b []) acc := by
  rw [parseSRTAux.eq_5, if_neg h]
  simp only [hmt, parseTimestamp_of_isTs ha, parseTimestamp_of_isTs hb]

theorem step_text (raw : Str) (h : jsTrim raw ≠ []) (i : Int) (a b : Str) (ts : List Str)
    (rest : List Str) (ln : Nat) (acc : List SubtitleEntry) :
    parseSRTAux (raw :: rest) ln (.accText i a b ts) acc =
      parseSRTAux rest (ln + 1) (.accText i a b (ts ++ [jsTrim raw])) acc := by
  cases ts with
  | nil =>
    rw [parseSRTAux.eq_6 _ _ _ _ _ _ _ _ (by intro j a4 c t ts hq; simp at hq), if_neg h]
  | cons t ts =>
    rw [parseSRTAux.eq_3, if_neg h]

theorem parseSRTAux_nil_flush (i : Int) (a b t : Str) (ts : List Str) (ln : Nat)
    (acc : List SubtitleEntry) :
    parseSRTAux [] ln (.accText i a b (t :: ts)) acc = .ok (acc ++ [⟨i, a, b, t :: ts⟩]) :=
  parseSRTAux.eq_1 ln acc i a b t ts

/-! ### Timing-line matching -/

theorem isTsStr_length {s : Str} (h : isTsStr s = true) : s.length = 12 :=
  matchTs_length (by unfold isTsStr at h; exact h)

theorem matchTimingLine_append {a b : Str} (ha : isTsStr a = true) (hb : isTsStr b = true) :
    matchTimingLine (a ++ arrowSep ++ b) = some (a, b) := by
  have la : a.length = 12 := isTsStr_length ha
  have lb : b.length = 12 := isTsStr_length hb
  have larrow : arrowSep.length = 5 := rfl
  have e12 : (a ++ arrowSep ++ b).take 12 = a := by
    rw [List.append_assoc]
    exact List.take_left' la
  have e17 : (a ++ arrowSep ++ b).drop 17 = b := by
    rw [List.append_assoc, show (17 : Nat) = 12 + 5 by rfl, ← List.drop_drop,
      List.drop_left' la]
    exact List.drop_left' larrow
  unfold matchTimingLine
  rw [if_pos]
  · rw [e12, e17]
  · simp only [List.append_assoc, Bool.and_eq_true, beq_iff_eq, List.length_append]
    refine ⟨⟨⟨by omega, ?_⟩, ?_⟩, ?_⟩
    · rw [List.take_left' la]
      exact ha
    · rw [List.drop_left' la]
      exact List.take_left' larrow
    · rw [show (17 : Nat) = 12 + 5 by rfl, ← List.drop_drop, List.drop_left' la,
        List.drop_left' larrow]
      exact hb

theorem matchTimingLine_eq_some {s a b : Str} (h : matchTimingLine s = some (a, b)) :
    isTsStr a = true ∧ isTsStr b = true ∧ s = a ++ arrowSep ++ b := by
  unfold matchTimingLine at h
  split at h
  · rename_i hc
    simp only [Bool.and_eq_true, beq_iff_eq] at hc
    obtain ⟨⟨⟨hlen, hta⟩, hmid⟩, htb⟩ := hc
    simp only [Option.some.injEq, Prod.mk.injEq] at h
    obtain ⟨h1, h2⟩ := h
    refine ⟨h1 ▸ hta, h2 ▸ htb, ?_⟩
    rw [← h1, ← h2, ← hmid]
    rw [show (17 : Nat) = 12 + 5 by rfl, ← List.drop_drop, List.append_assoc,
      List.take_append_drop, List.take_append_drop]
  · exact absurd h (by simp)

/-! ### Parsing whole blocks -/

theorem parse_textLines : ∀ (txt : List Str), (∀ l ∈ txt, l ≠ [] ∧ jsTrim l = l) →
    ∀ (i : Int) (a b : Str) (buf rest : List Str) (ln : Nat) (acc : List SubtitleEntry),
    parseSRTAux (txt ++ rest) ln (.accText i a b buf) acc =
      parseSRTAux rest (ln + txt.length) (.accText i a b (buf ++ txt)) acc := by
  intro txt
  induction txt with
  | nil =>
    intro _ i a b buf rest ln acc
    simp
  | cons t ts ih =>
    intro h i a b buf rest ln acc
    obtain ⟨ht1, ht2⟩ := h t (by simp)
    show parseSRTAux (t :: (ts ++ rest)) ln (.accText i a b buf) acc = _
    rw [step_text t (by rw [ht2]; exact ht1) i a b buf (ts ++ rest) ln acc, ht2,
      ih (fun l hl => h l (by simp [hl]))]
    congr 1
    · simp only [List.length_cons]
      omega
    · simp

theorem parse_blockLines (e : SubtitleEntry) (h : wfEntry e) (rest : List Str) (ln : Nat)
    (acc : List SubtitleEntry) :
    parseSRTAux (blockLines e ++ rest) ln .awaitingId acc =
      parseSRTAux rest (ln + e.text.length + 3) .awaitingId (acc ++ [e]) := by
  obtain ⟨ha, hb, htne, htwf⟩ := h
  show parseSRTAux (intToStr e.id :: timingLine e :: (e.text ++ [[]] ++ rest)) ln
      .awaitingId acc = _
  rw [step_id (intToStr e.id) (by rw [jsTrim_intToStr]; exact intToStr_ne_nil e.id)
      (by rw [jsTrim_intToStr]; exact jsParseInt_intToStr e.id),
    step_timing (timingLine e) e.id
      (by rw [show jsTrim (timingLine e) = timingLine e from jsTrim_timingLine ha hb]
          exact timingLine_ne_nil e.startTime e.endTime)
      (by rw [show jsTrim (timingLine e) = timingLine e from jsTrim_timingLine ha hb]
          exact matchTimingLine_append ha hb) ha hb,
    show e.text ++ [[]] ++ rest = e.text ++ ([] :: rest) by simp,
    parse_textLines e.text (fun l hl => ⟨(htwf l hl).1, (htwf l hl).2.1⟩)]
  cases hte : e.text with
  | nil => exact absurd hte htne
  | cons t ts =>
    rw [show ([] : List Str) ++ t :: ts = t :: ts by simp,
      step_blank_flush [] rfl]
    have he : (⟨e.id, e.startTime, e.endTime, t :: ts⟩ : SubtitleEntry) = e := by
      rw [← hte]
    rw [he]
    congr 1
    simp only [List.length_cons]
    omega

theorem parse_lastBlock (e : SubtitleEntry) (h : wfEntry e) (ln : Nat)
    (acc : List SubtitleEntry) :
    parseSRTAux (intToStr e.id :: timingLine e :: e.text) ln .awaitingId acc =
      .ok (acc ++ [e]) := by
  obtain ⟨ha, hb, htne, htwf⟩ := h
  rw [step_id (intToStr e.id) (by rw [jsTrim_intToStr]; exact intToStr_ne_nil e.id)
      (by rw [jsTrim_intToStr]; exact jsParseInt_intToStr e.id),
    step_timing (timingLine e) e.id
      (by rw [show jsTrim (timingLine e) = timingLine e from jsTrim_timingLine ha hb]
          exact timingLine_ne_nil e.startTime e.endTime)
      (by rw [show jsTrim (timingLine e) = timingLine e from jsTrim_timingLine ha hb]
          exact matchTimingLine_append ha hb) ha hb,
    show e.text = e.text ++ [] by simp,
    parse_textLines e.text (fun l hl => ⟨(htwf l hl).1, (htwf l hl).2.1⟩)]
  cases hte : e.text with
  | nil => exact absurd hte htne
  | cons t ts =>
    rw [show ([] : List Str) ++ t :: ts = t :: ts by simp, parseSRTAux_nil_flush]
    have he : (⟨e.id, e.startTime, e.endTime, t :: ts⟩ : SubtitleEntry) = e := by
      rw [← hte]
    rw [he]

/-! ### The line list of a formatted document -/

theorem frontLines_ne_nil (e : SubtitleEntry) (rest : List SubtitleEntry) :
    frontLines (e :: rest) ≠ [] := by
  cases rest with
  | nil => simp [frontLines]
  | cons e2 rest2 =>
    show blockLines e ++ frontLines (e2 :: rest2) ≠ []
    intro hc
    rw [List.append_eq_nil] at hc
    exact blockLines_ne_nil e hc.1

theorem flatMap_eq_frontLines : ∀ (E : List SubtitleEntry), E ≠ [] →
    E.flatMap blockLines = frontLines E ++ [[]] := by
  intro E
  induction E with
  | nil => intro h; exact absurd rfl h
  | cons e rest ih =>
    intro _
    cases rest with
    | nil => simp [blockLines, frontLines]
    | cons e2 rest2 =>
      show blockLines e ++ (e2 :: rest2).flatMap blockLines =
        blockLines e ++ frontLines (e2 :: rest2) ++ [[]]
      rw [ih (by simp), List.append_assoc]

theorem parse_frontLines : ∀ (E : List SubtitleEntry), (∀ e ∈ E, wfEntry e) →
    ∀ (ln : Nat) (acc : List SubtitleEntry), E ≠ [] →
    parseSRTAux (frontLines E) ln .awaitingId acc = .ok (acc ++ E) := by
  intro E
  induction E with
  | nil => intro _ _ _ h; exact absurd rfl h
  | cons e rest ih =>
    intro hwf ln acc _
    cases rest with
    | nil =>
      show parseSRTAux (intToStr e.id :: timingLine e :: e.text) ln .awaitingId acc = _
      exact parse_lastBlock e (hwf e (by simp)) ln acc
    | cons e2 rest2 =>
      show parseSRTAux (blockLines e ++ frontLines (e2 :: rest2)) ln .awaitingId acc = _
      rw [parse_blockLines e (hwf e (by simp)) _ _ _,
        ih (fun x hx => hwf x (by simp [hx])) _ _ (by simp)]
      simp

theorem frontLines_cons_head (e : SubtitleEntry) (rest : List SubtitleEntry) :
    ∃ more, frontLines (e :: rest) = intToStr e.id :: more := by
  cases rest with
  | nil => exact ⟨timingLine e :: e.text, rfl⟩
  | cons e2 rest2 =>
    refine ⟨(timingLine e :: (e.text ++ [[]])) ++ frontLines (e2 :: rest2), ?_⟩
    show blockLines e ++ frontLines (e2 :: rest2) = _
    simp [blockLines]

theorem frontLines_concat : ∀ (rest : List SubtitleEntry) (e : SubtitleEntry),
    (∀ x ∈ e :: rest, wfEntry x) →
    ∃ pre lst, frontLines (e :: rest) = pre ++ [lst] ∧ lst ≠ [] ∧ jsTrim lst = lst := by
  intro rest
  induction rest with
  | nil =>
    intro e hwf
    obtain ⟨_, _, htne, htwf⟩ := hwf e (by simp)
    obtain ⟨lt1, lt2, _⟩ := htwf (e.text.getLast htne) (List.getLast_mem htne)
    refine ⟨[intToStr e.id, timingLine e] ++ e.text.dropLast, e.text.getLast htne, ?_, lt1, lt2⟩
    show [intToStr e.id, timingLine e] ++ e.text = _
    rw [List.append_assoc, List.dropLast_append_getLast htne]
  | cons e2 rest2 ih =>
    intro e hwf
    obtain ⟨pre2, lst, hfl, h1, h2⟩ := ih e2 (fun x hx => hwf x (List.mem_cons_of_mem e hx))
    refine ⟨blockLines e ++ pre2, lst, ?_, h1, h2⟩
    show blockLines e ++ frontLines (e2 :: rest2) = _
    rw [hfl, List.append_assoc]

theorem getLast?_intercalate_concat : ∀ (lines : List Str) (l : Str), l ≠ [] →
    (List.intercalate [nlChar] (lines ++ [l])).getLast? = l.getLast? := by
  intro lines
  induction lines with
  | nil =>
    intro l _
    rw [List.nil_append, intercalate_singleton]
  | cons x xs ih =>
    intro l hl
    have hne : List.intercalate [nlChar] (xs ++ [l]) ≠ [] := by
      intro hc
      have h0 : (List.intercalate [nlChar] (xs ++ [l])).getLast? = none := by
        rw [hc]
        rfl
      rw [ih l hl] at h0
      exact hl (List.getLast?_eq_none_iff.mp h0)
    show (List.intercalate [nlChar] (x :: (xs ++ [l]))).getLast? = l.getLast?
    cases hxs : xs ++ [l] with
    | nil => exact absurd hxs (by simp)
    | cons y ys =>
      rw [intercalate_cons2, ← hxs,
        List.getLast?_append_of_ne_nil _ hne, ih l hl]

theorem trimR_append_ws {s : Str} {c : Char} (hc : isWsChar c = true) :
    trimR (s ++ [c]) = trimR s := by
  show (List.dropWhile isWsChar (s ++ [c]).reverse).reverse = _
  rw [List.reverse_append]
  simp only [List.reverse_cons, List.reverse_nil, List.nil_append, List.singleton_append,
    List.dropWhile_cons, hc, if_pos]
  rfl

theorem wf_no_nl_frontLines {E : List SubtitleEntry} (hwf : ∀ e ∈ E, wfEntry e) :
    ∀ l ∈ frontLines E, nlChar ∉ l := by
  intro l hl
  cases E with
  | nil => simp [frontLines] at hl
  | cons e rest =>
    have hmem : l ∈ (e :: rest).flatMap blockLines := by
      rw [flatMap_eq_frontLines _ (by simp)]
      exact List.mem_append_left _ hl
    rw [List.mem_flatMap] at hmem
    obtain ⟨x, hx, hlx⟩ := hmem
    obtain ⟨ha, hb, _, htwf⟩ := hwf x hx
    unfold blockLines at hlx
    rcases List.mem_append.1 hlx with hm | hm
    · rcases List.mem_append.1 hm with hm2 | hm2
      · rcases List.mem_cons.1 hm2 with h4 | h4
        · exact h4 ▸ nl_not_mem_intToStr x.id
        · rcases List.mem_cons.1 h4 with h5 | h5
          · exact h5 ▸ nl_not_mem_timingLine (isTsStr_no_nl ha) (isTsStr_no_nl hb)
          · exact absurd h5 (by simp)
      · exact (htwf l hm2).2.2
    · rw [List.mem_singleton] at hm
      rw [hm]
      simp

/-- Formatting well-formed entries and re-parsing recovers them exactly. -/
theorem parseSRT_formatSRT {E : List SubtitleEntry} (hwf : ∀ e ∈ E, wfEntry e) :
    parseSRT (formatSRT E) = .ok E := by
  cases E with
  | nil => rfl
  | cons e0 rest0 =>
    have hne : (e0 :: rest0 : List SubtitleEntry) ≠ [] := by simp
    have hfmt : formatSRT (e0 :: rest0) =
        List.intercalate [nlChar] (frontLines (e0 :: rest0)) ++ [nlChar] := by
      rw [formatSRT_eq_intercalate, flatMap_eq_frontLines _ hne,
        intercalate_append_ne_nil _ _ _ (frontLines_ne_nil e0 rest0) (by simp),
        intercalate_singleton]
      simp
    obtain ⟨more, hhead⟩ := frontLines_cons_head e0 rest0
    obtain ⟨pre, lst, hconcat, hlst1, hlst2⟩ := frontLines_concat rest0 e0 hwf
    have hbodyne : List.intercalate [nlChar] (frontLines (e0 :: rest0)) ≠ [] := by
      rw [hhead]
      cases more with
      | nil =>
        rw [intercalate_singleton]
        exact intToStr_ne_nil e0.id
      | cons m ms =>
        rw [intercalate_cons2]
        simp [List.append_eq_nil, intToStr_ne_nil e0.id]
    have hbodyhead : ∀ c, (List.intercalate [nlChar] (frontLines (e0 :: rest0))).head? = some c →
        isWsChar c = false := by
      intro c hc
      rw [hhead] at hc
      cases more with
      | nil =>
        rw [intercalate_singleton] at hc
        exact intToStr_all_nonws e0.id c (List.mem_of_mem_head? (by simp [hc]))
      | cons m ms =>
        rw [intercalate_cons2, List.append_assoc,
          List.head?_append_of_ne_nil _ (intToStr_ne_nil e0.id)] at hc
        exact intToStr_all_nonws e0.id c (List.mem_of_mem_head? (by simp [hc]))
    have hbodylast : ∀ c, (List.intercalate [nlChar] (frontLines (e0 :: rest0))).getLast? = some c →
        isWsChar c = false := by
      intro c hc
      rw [hconcat, getLast?_intercalate_concat pre lst hlst1] at hc
      have hjc : (jsTrim lst).getLast? = some c := by
        rw [hlst2]
        exact hc
      exact getLast?_jsTrim_not_ws hjc
    have htrim : jsTrim (formatSRT (e0 :: rest0)) =
        List.intercalate [nlChar] (frontLines (e0 :: rest0)) := by
      rw [hfmt]
      show trimR (trimL (List.intercalate [nlChar] (frontLines (e0 :: rest0)) ++ [nlChar])) = _
      rw [trimL_eq_self (fun c hc => by
          rw [List.head?_append_of_ne_nil _ hbodyne] at hc
          exact hbodyhead c hc),
        trimR_append_ws (by decide), trimR_eq_self hbodylast]
    unfold parseSRT
    rw [htrim, splitOnNl_intercalate _ (frontLines_ne_nil e0 rest0) (wf_no_nl_frontLines hwf),
      parse_frontLines _ hwf 1 [] hne]
    rw [List.nil_append]

/-! ### Parser output invariant -/

theorem step_blank_awaitingTiming (raw : Str) (h : jsTrim raw = []) (i : Int)
    (rest : List Str) (ln : Nat) (acc : List SubtitleEntry) :
    parseSRTAux (raw :: rest) ln (.awaitingTiming i) acc =
      parseSRTAux rest (ln + 1) (.awaitingTiming i) acc := by
  rw [parseSRTAux.eq_5, if_pos h]

theorem splitOnNl_ne_nil (s : Str) : splitOnNl s ≠ [] := by
  induction s with
  | nil => simp [splitOnNl]
  | cons c cs ih =>
    rw [splitOnNl_cons]
    split
    · simp
    · cases hsp : splitOnNl cs with
      | nil => exact absurd hsp ih
      | cons r rs => simp [List.modifyHead]

theorem no_nl_splitOnNl (s : Str) : ∀ l ∈ splitOnNl s, nlChar ∉ l := by
  induction s with
  | nil =>
    intro l hl
    simp only [splitOnNl, List.mem_singleton] at hl
    rw [hl]
    simp
  | cons c cs ih =>
    intro l hl
    rw [splitOnNl_cons] at hl
    by_cases hc : c = nlChar
    · rw [if_pos hc] at hl
      rcases List.mem_cons.1 hl with h | h
      · rw [h]
        simp
      · exact ih l h
    · rw [if_neg hc] at hl
      cases hsp : splitOnNl cs with
      | nil => exact absurd hsp (splitOnNl_ne_nil cs)
      | cons r rs =>
        rw [hsp] at hl
        simp only [List.modifyHead] at hl
        rcases List.mem_cons.1 hl with h | h
        · rw [h]
          intro hm
          rcases List.mem_cons.1 hm with h2 | h2
          · exact hc h2.symm
          · exact ih r (by rw [hsp]; simp) h2
        · exact ih l (by rw [hsp]; simp [h])

theorem parse_wf : ∀ (lines : List Str) (ln : Nat) (st : PState) (acc res : List SubtitleEntry),
    parseSRTAux lines ln st acc = .ok res →
    (∀ l ∈ lines, nlChar ∉ l) →
    (∀ e ∈ acc, wfEntry e) → wfState st →
    ∀ e ∈ res, wfEntry e := by
  intro lines
  induction lines with
  | nil =>
    intro ln st acc res hok hnl hacc hst e he
    cases st with
    | awaitingId =>
      rw [parseSRTAux.eq_2 _ _ _ (by intro j a4 c t ts hq; exact PState.noConfusion hq)] at hok
      simp only [Except.ok.injEq] at hok
      exact hacc e (hok ▸ he)
    | awaitingTiming i =>
      rw [parseSRTAux.eq_2 _ _ _ (by intro j a4 c t ts hq; exact PState.noConfusion hq)] at hok
      simp only [Except.ok.injEq] at hok
      exact hacc e (hok ▸ he)
    | accText i a b ts =>
      cases ts with
      | nil =>
        rw [parseSRTAux.eq_2 _ _ _ (by intro j a4 c t ts hq; simp at hq)] at hok
        simp only [Except.ok.injEq] at hok
        exact hacc e (hok ▸ he)
      | cons t ts2 =>
        rw [parseSRTAux.eq_1] at hok
        simp only [Except.ok.injEq] at hok
        subst hok
        rcases List.mem_append.1 he with h | h
        · exact hacc e h
        · rw [List.mem_singleton] at h
          subst h
          obtain ⟨ha, hb, hts⟩ := hst
          exact ⟨ha, hb, by simp, hts⟩
  | cons raw rest ih =>
    intro ln st acc res hok hnl hacc hst e he
    have hnlrest : ∀ l ∈ rest, nlChar ∉ l := fun l hl => hnl l (by simp [hl])
    by_cases hblank : jsTrim raw = []
    · cases st with
      | awaitingId =>
        rw [step_blank_awaitingId raw hblank] at hok
        exact ih _ _ _ _ hok hnlrest hacc trivial e he
      | awaitingTiming i =>
        rw [step_blank_awaitingTiming raw hblank] at hok
        exact ih _ _ _ _ hok hnlrest hacc trivial e he
      | accText i a b ts =>
        cases ts with
        | nil =>
          rw [step_blank_accNil raw hblank] at hok
          exact ih _ _ _ _ hok hnlrest hacc hst e he
        | cons t ts2 =>
          rw [step_blank_flush raw hblank] at hok
          obtain ⟨ha, hb, hts⟩ := hst
          refine ih _ _ _ _ hok hnlrest ?_ trivial e he
          intro x hx
          rcases List.mem_append.1 hx with h | h
          · exact hacc x h
          · rw [List.mem_singleton] at h
            subst h
            exact ⟨ha, hb, by simp, hts⟩
    · cases st with
      | awaitingId =>
        rw [parseSRTAux.eq_4, if_neg hblank] at hok
        cases hpi : jsParseInt (jsTrim raw) with
        | none =>
          rw [hpi] at hok
          simp at hok
        | some i =>
          rw [hpi] at hok
          exact ih _ _ _ _ hok hnlrest hacc trivial e he
      | awaitingTiming i =>
        rw [parseSRTAux.eq_5, if_neg hblank] at hok
        cases hmt : matchTimingLine (jsTrim raw) with
        | none =>
          rw [hmt] at hok
          simp at hok
        | some ab =>
          obtain ⟨a, b⟩ := ab
          rw [hmt] at hok
          obtain ⟨hta, htb, _⟩ := matchTimingLine_eq_some hmt
          simp only [parseTimestamp_of_isTs hta, parseTimestamp_of_isTs htb] at hok
          exact ih _ _ _ _ hok hnlrest hacc ⟨hta, htb, by simp⟩ e he
      | accText i a b ts =>
        rw [step_text raw hblank] at hok
        obtain ⟨ha2, hb2, hts⟩ := hst
        refine ih _ _ _ _ hok hnlrest hacc ⟨ha2, hb2, ?_⟩ e he
        intro l hl
        rcases List.mem_append.1 hl with h | h
        · exact hts l h
        · rw [List.mem_singleton] at h
          subst h
          refine ⟨hblank, jsTrim_idem raw, ?_⟩
          intro hnlm
          exact hnl raw (by simp) (mem_of_mem_jsTrim hnlm)

/-- Claim C1: for every entry sequence `E` that `parseSRT` can output,
`parseSRT (formatSRT E)` succeeds and returns a sequence equal to `E`. -/
theorem c1_parse_format_roundtrip (content : Str) (E : List SubtitleEntry)
    (h : parseSRT content = .ok E) : parseSRT (formatSRT E) = .ok E := by
  apply parseSRT_formatSRT
  intro e he
  exact parse_wf (splitOnNl (jsTrim content)) 1 .awaitingId [] E h
    (no_nl_splitOnNl (jsTrim content)) (by simp) trivial e he

theorem c1_parse_format_roundtrip_witness :
    parseSRT (("5\n00:00:01,000 --> 00:00:04,000\nHi\n\n2\n00:00:05,000 --> 00:00:08,000\nYo").data) =
      .ok [(⟨5, ("00:00:01,000").data, ("00:00:04,000").data, [("Hi").data]⟩ : SubtitleEntry),
           (⟨2, ("00:00:05,000").data, ("00:00:08,000").data, [("Yo").data]⟩ : SubtitleEntry)] ∧
    parseSRT (formatSRT
        [(⟨5, ("00:00:01,000").data, ("00:00:04,000").data, [("Hi").data]⟩ : SubtitleEntry),
         (⟨2, ("00:00:05,000").data, ("00:00:08,000").data, [("Yo").data]⟩ : SubtitleEntry)]) =
      .ok [(⟨5, ("00:00:01,000").data, ("00:00:04,000").data, [("Hi").data]⟩ : SubtitleEntry),
           (⟨2, ("00:00:05,000").data, ("00:00:08,000").data, [("Yo").data]⟩ : SubtitleEntry)] :=
  ⟨by decide,
   c1_parse_format_roundtrip
     (("5\n00:00:01,000 --> 00:00:04,000\nHi\n\n2\n00:00:05,000 --> 00:00:08,000\nYo").data)
     _ (by decide)⟩

/-- Claim C10: a block with an id line and a valid timing line but no text is
not flushed or reset at the following blank line; the next block's lines —
its id line and timing line included — are accumulated as text of the
pending entry, and the single resulting entry carries the first block's id
and timestamps. -/
theorem c10_merge_blocks (i1 i2 : Int) (a1 b1 a2 b2 txt : Str)
    (ha1 : isTsStr a1 = true) (hb1 : isTsStr b1 = true)
    (ha2 : isTsStr a2 = true) (hb2 : isTsStr b2 = true)
    (ht1 : txt ≠ []) (ht2 : jsTrim txt = txt) (ht3 : nlChar ∉ txt) :
    parseSRT (List.intercalate [nlChar]
        [intToStr i1, a1 ++ arrowSep ++ b1, [], intToStr i2, a2 ++ arrowSep ++ b2, txt]) =
      .ok [⟨i1, a1, b1, [intToStr i2, a2 ++ arrowSep ++ b2, txt]⟩] := by
  have hid1 := intToStr_ne_nil i1
  have htxtlast : ∀ c, txt.getLast? = some c → isWsChar c = false := by
    intro c hc
    have hjc : (jsTrim txt).getLast? = some c := by
      rw [ht2]
      exact hc
    exact getLast?_jsTrim_not_ws hjc
  have hlines : ∀ l ∈ [intToStr i1, a1 ++ arrowSep ++ b1, [], intToStr i2,
      a2 ++ arrowSep ++ b2, txt], nlChar ∉ l := by
    intro l hl
    simp only [List.mem_cons, List.not_mem_nil, or_false] at hl
    rcases hl with h | h | h | h | h | h <;> rw [h]
    · exact nl_not_mem_intToStr i1
    · exact @nl_not_mem_timingLine ⟨0, a1, b1, []⟩ (isTsStr_no_nl ha1) (isTsStr_no_nl hb1)
    · simp
    · exact nl_not_mem_intToStr i2
    · exact @nl_not_mem_timingLine ⟨0, a2, b2, []⟩ (isTsStr_no_nl ha2) (isTsStr_no_nl hb2)
    · exact ht3
  have hcontent : List.intercalate [nlChar]
      [intToStr i1, a1 ++ arrowSep ++ b1, [], intToStr i2, a2 ++ arrowSep ++ b2, txt] =
      List.intercalate [nlChar]
        ([intToStr i1, a1 ++ arrowSep ++ b1, [], intToStr i2, a2 ++ arrowSep ++ b2] ++ [txt]) :=
    rfl
  have htrim : jsTrim (List.intercalate [nlChar]
      [intToStr i1, a1 ++ arrowSep ++ b1, [], intToStr i2, a2 ++ arrowSep ++ b2, txt]) =
      List.intercalate [nlChar]
        [intToStr i1, a1 ++ arrowSep ++ b1, [], intToStr i2, a2 ++ arrowSep ++ b2, txt] := by
    apply jsTrim_eq_self
    · intro c hc
      rw [intercalate_cons2, List.append_assoc,
        List.head?_append_of_ne_nil _ hid1] at hc
      exact intToStr_all_nonws i1 c (List.mem_of_mem_head? (by simp [hc]))
    · intro c hc
      rw [hcontent, getLast?_intercalate_concat _ txt ht1] at hc
      exact htxtlast c hc
  unfold parseSRT
  rw [htrim, splitOnNl_intercalate _ (by simp) hlines]
  rw [step_id (intToStr i1) (by rw [jsTrim_intToStr]; exact hid1)
      (by rw [jsTrim_intToStr]; exact jsParseInt_intToStr i1),
    step_timing (a1 ++ arrowSep ++ b1) i1
      (by rw [jsTrim_timingLine ha1 hb1]; exact timingLine_ne_nil a1 b1)
      (by rw [jsTrim_timingLine ha1 hb1]; exact matchTimingLine_append ha1 hb1) ha1 hb1,
    step_blank_accNil [] rfl,
    show ([intToStr i2, a2 ++ arrowSep ++ b2, txt] : List Str) =
      [intToStr i2, a2 ++ arrowSep ++ b2, txt] ++ [] from (by simp),
    parse_textLines [intToStr i2, a2 ++ arrowSep ++ b2, txt] ?hwf,
    show ([] : List Str) ++ [intToStr i2, a2 ++ arrowSep ++ b2, txt] =
      [intToStr i2, a2 ++ arrowSep ++ b2, txt] from rfl]
  case hwf =>
    intro l hl
    simp only [List.mem_cons, List.not_mem_nil, or_false] at hl
    rcases hl with h | h | h <;> rw [h]
    · exact ⟨intToStr_ne_nil i2, jsTrim_intToStr i2⟩
    · exact ⟨timingLine_ne_nil a2 b2, jsTrim_timingLine ha2 hb2⟩
    · exact ⟨ht1, ht2⟩
  rw [parseSRTAux_nil_flush]
  simp

theorem c10_merge_blocks_witness :
    parseSRT (List.intercalate [nlChar]
        [intToStr 7, ("00:00:01,000").data ++ arrowSep ++ ("00:00:04,000").data, [],
         intToStr 8, ("00:00:05,000").data ++ arrowSep ++ ("00:00:08,000").data, ("Hi").data]) =
      .ok [⟨7, ("00:00:01,000").data, ("00:00:04,000").data,
            [intToStr 8, ("00:00:05,000").data ++ arrowSep ++ ("00:00:08,000").data,
             ("Hi").data]⟩] :=
  c10_merge_blocks 7 8 (("00:00:01,000").data) (("00:00:04,000").data)
    (("00:00:05,000").data) (("00:00:08,000").data) (("Hi").data)
    (by decide) (by decide) (by decide) (by decide) (by decide) (by decide) (by decide)

/-! ### The interpolation branch -/

theorem correctEntryInterp_eq {sorted : List SyncPoint} {e : SubtitleEntry}
    (h1 : isTsStr e.startTime = true) (h2 : isTsStr e.endTime = true) :
    correctEntryInterp sorted e = .ok
      { e with
        startTime := formatTimestamp (jsRound (interpolateTime (tsSeconds e.startTime) sorted * 1000)),
        endTime := formatTimestamp (jsRound (interpolateTime (tsSeconds e.endTime) sorted * 1000)) } := by
  unfold correctEntryInterp
  rw [convertSRTTimeToSeconds_of_isTs h1, convertSRTTimeToSeconds_of_isTs h2]

theorem applySync_interp_eq (pts : List SyncPoint) (E : List SubtitleEntry)
    (h2 : 2 ≤ pts.length)
    (hwf : ∀ e ∈ E, isTsStr e.startTime = true ∧ isTsStr e.endTime = true) :
    applySyncCorrection pts E = .ok (E.map (fun e =>
      { e with
        startTime := formatTimestamp
          (jsRound (interpolateTime (tsSeconds e.startTime) (List.insertionSort spLE pts) * 1000)),
        endTime := formatTimestamp
          (jsRound (interpolateTime (tsSeconds e.endTime) (List.insertionSort spLE pts) * 1000)) })) := by
  unfold applySyncCorrection
  rw [if_neg (by omega)]
  exact mapE_congr_ok _ _ E (fun a ha => correctEntryInterp_eq (hwf a ha).1 (hwf a ha).2)

/-- Claim C9: with two or more sync points `applySyncCorrection` applies no
clamping — each corrected time is exactly the rounded interpolated value,
with no `max` against 0 or against start + 100 ms — so a corrected entry can
have a negative start time, or an end time earlier than its start time. -/
theorem c9_no_clamping_two_points :
    (∀ (pts : List SyncPoint) (E : List SubtitleEntry), 2 ≤ pts.length →
      (∀ e ∈ E, isTsStr e.startTime = true ∧ isTsStr e.endTime = true) →
      applySyncCorrection pts E = .ok (E.map (fun e =>
        { e with
          startTime := formatTimestamp
            (jsRound (interpolateTime (tsSeconds e.startTime) (List.insertionSort spLE pts) * 1000)),
          endTime := formatTimestamp
            (jsRound (interpolateTime (tsSeconds e.endTime) (List.insertionSort spLE pts) * 1000)) }))) ∧
    (applySyncCorrection [⟨[], 0, 10, 1⟩, ⟨[], 5, 20, 2⟩]
        [⟨1, ("00:00:00,000").data, ("00:00:01,000").data, [("Hi").data]⟩] =
      .ok [⟨1, formatTimestamp (-5000), formatTimestamp (-4500), [("Hi").data]⟩] ∧
      (-5000 : Int) < 0) ∧
    (applySyncCorrection [⟨[], 10, 0, 1⟩, ⟨[], 0, 10, 2⟩]
        [⟨1, ("00:00:02,000").data, ("00:00:03,000").data, [("Hi").data]⟩] =
      .ok [⟨1, formatTimestamp 8000, formatTimestamp 7000, [("Hi").data]⟩] ∧
      (7000 : Int) < 8000) := by
  refine ⟨fun pts E h2 hwf => applySync_interp_eq pts E h2 hwf, ⟨?_, by decide⟩, ⟨?_, by decide⟩⟩
  · rw [applySync_interp_eq _ _ (by decide) (by decide),
      show List.insertionSort spLE [(⟨[], 0, 10, 1⟩ : SyncPoint), ⟨[], 5, 20, 2⟩] =
        [(⟨[], 0, 10, 1⟩ : SyncPoint), ⟨[], 5, 20, 2⟩] by decide]
    have hs0 : tsSeconds (("00:00:00,000").data) = 0 := by
      unfold tsSeconds
      rw [show tsValue (("00:00:00,000").data) = 0 from rfl]
      norm_num
    have hs1 : tsSeconds (("00:00:01,000").data) = 1 := by
      unfold tsSeconds
      rw [show tsValue (("00:00:01,000").data) = 1000 from rfl]
      norm_num
    have h1 : jsRound (interpolateTime (tsSeconds (("00:00:00,000").data))
        [(⟨[], 0, 10, 1⟩ : SyncPoint), ⟨[], 5, 20, 2⟩] * 1000) = -5000 := by
      rw [hs0, show interpolateTime 0 [(⟨[], 0, 10, 1⟩ : SyncPoint), ⟨[], 5, 20, 2⟩] = -5 by
          simp only [interpolateTime]
          norm_num,
        show ((-5 : ℚ) * 1000) = ((-5000 : Int) : ℚ) by norm_num]
      exact jsRound_intCast _
    have h2 : jsRound (interpolateTime (tsSeconds (("00:00:01,000").data))
        [(⟨[], 0, 10, 1⟩ : SyncPoint), ⟨[], 5, 20, 2⟩] * 1000) = -4500 := by
      rw [hs1, show interpolateTime 1 [(⟨[], 0, 10, 1⟩ : SyncPoint), ⟨[], 5, 20, 2⟩] = -9/2 by
          simp only [interpolateTime]
          norm_num,
        show ((-9/2 : ℚ) * 1000) = ((-4500 : Int) : ℚ) by norm_num]
      exact jsRound_intCast _
    simp only [List.map_cons, List.map_nil, h1, h2]
  · rw [applySync_interp_eq _ _ (by decide) (by decide),
      show List.insertionSort spLE [(⟨[], 10, 0, 1⟩ : SyncPoint), ⟨[], 0, 10, 2⟩] =
        [(⟨[], 10, 0, 1⟩ : SyncPoint), ⟨[], 0, 10, 2⟩] by decide]
    have hs2 : tsSeconds (("00:00:02,000").data) = 2 := by
      unfold tsSeconds
      rw [show tsValue (("00:00:02,000").data) = 2000 from rfl]
      norm_num
    have hs3 : tsSeconds (("00:00:03,000").data) = 3 := by
      unfold tsSeconds
      rw [show tsValue (("00:00:03,000").data) = 3000 from rfl]
      norm_num
    have h1 : jsRound (interpolateTime (tsSeconds (("00:00:02,000").data))
        [(⟨[], 10, 0, 1⟩ : SyncPoint), ⟨[], 0, 10, 2⟩] * 1000) = 8000 := by
      rw [hs2, show interpolateTime 2 [(⟨[], 10, 0, 1⟩ : SyncPoint), ⟨[], 0, 10, 2⟩] = 8 by
          simp only [interpolateTime]
          norm_num [bracketLoop],
        show ((8 : ℚ) * 1000) = ((8000 : Int) : ℚ) by norm_num]
      exact jsRound_intCast _
    have h2 : jsRound (interpolateTime (tsSeconds (("00:00:03,000").data))
        [(⟨[], 10, 0, 1⟩ : SyncPoint), ⟨[], 0, 10, 2⟩] * 1000) = 7000 := by
      rw [hs3, show interpolateTime 3 [(⟨[], 10, 0, 1⟩ : SyncPoint), ⟨[], 0, 10, 2⟩] = 7 by
          simp only [interpolateTime]
          norm_num [bracketLoop],
        show ((7 : ℚ) * 1000) = ((7000 : Int) : ℚ) by norm_num]
      exact jsRound_intCast _
    simp only [List.map_cons, List.map_nil, h1, h2]

theorem c9_no_clamping_two_points_witness :
    applySyncCorrection [⟨[], 0, 10, 1⟩, ⟨[], 5, 20, 2⟩]
        [⟨1, ("00:00:00,000").data, ("00:00:01,000").data, [("Hi").data]⟩] =
      .ok ([(⟨1, ("00:00:00,000").data, ("00:00:01,000").data, [("Hi").data]⟩ : SubtitleEntry)].map
        (fun e =>
        { e with
          startTime := formatTimestamp
            (jsRound (interpolateTime (tsSeconds e.startTime)
              (List.insertionSort spLE [⟨[], 0, 10, 1⟩, ⟨[], 5, 20, 2⟩]) * 1000)),
          endTime := formatTimestamp
            (jsRound (interpolateTime (tsSeconds e.endTime)
              (List.insertionSort spLE [⟨[], 0, 10, 1⟩, ⟨[], 5, 20, 2⟩]) * 1000)) })) :=
  c9_no_clamping_two_points.1 [⟨[], 0, 10, 1⟩, ⟨[], 5, 20, 2⟩]
    [⟨1, ("00:00:00,000").data, ("00:00:01,000").data, [("Hi").data]⟩]
    (by decide) (by decide)

/-- Below the first sorted point, `interpolateTime` extrapolates with the
slope of the first two points. -/
theorem interpolate_branch1 (t : ℚ) (p1 p2 : SyncPoint) (rest : List SyncPoint)
    (h1 : t ≤ p1.subtitleTime) :
    interpolateTime t (p1 :: p2 :: rest) =
      p1.audioTime + (p2.audioTime - p1.audioTime) / (p2.subtitleTime - p1.subtitleTime) *
        (t - p1.subtitleTime) := by
  simp only [interpolateTime]
  rw [if_pos h1]

/-- At or above the last sorted point, `interpolateTime` extrapolates with
the slope of the last two points, anchored at the last point. -/
theorem interpolate_branch2 (t : ℚ) (p1 : SyncPoint) (rest : List SyncPoint)
    (q2 q1 : SyncPoint) (R : List SyncPoint)
    (hrev : (p1 :: rest).reverse = q2 :: q1 :: R)
    (h1 : ¬ t ≤ p1.subtitleTime)
    (h2 : ((p1 :: rest).getLast (List.cons_ne_nil p1 rest)).subtitleTime ≤ t) :
    interpolateTime t (p1 :: rest) =
      q2.audioTime + (q2.audioTime - q1.audioTime) / (q2.subtitleTime - q1.subtitleTime) *
        (t - q2.subtitleTime) := by
  simp only [interpolateTime]
  rw [if_neg h1, if_pos h2, hrev]

/-- Strictly between the first and the last sorted point, `interpolateTime`
is the bracketing loop (with fallback `t`). -/
theorem interpolate_branch3 (t : ℚ) (p1 : SyncPoint) (rest : List SyncPoint)
    (h1 : ¬ t ≤ p1.subtitleTime)
    (h2 : ¬ ((p1 :: rest).getLast (List.cons_ne_nil p1 rest)).subtitleTime ≤ t) :
    interpolateTime t (p1 :: rest) = (bracketLoop t (p1 :: rest)).getD t := by
  simp only [interpolateTime]
  rw [if_neg h1, if_neg h2]

/-- With strictly increasing subtitle times, the bracketing loop on any
decomposition `pre ++ p :: q :: post` with `p.subtitleTime ≤ t ≤
q.subtitleTime` returns the interpolation between `p` and `q` (at a shared
boundary the earlier pair agrees in value). -/
theorem bracketLoop_bracket (t : ℚ) (pre : List SyncPoint) :
    ∀ (p q : SyncPoint) (post : List SyncPoint),
      List.Pairwise (fun u v => u.subtitleTime < v.subtitleTime) (pre ++ p :: q :: post) →
      p.subtitleTime ≤ t → t ≤ q.subtitleTime →
      bracketLoop t (pre ++ p :: q :: post) =
        some (p.audioTime + (t - p.subtitleTime) / (q.subtitleTime - p.subtitleTime) *
          (q.audioTime - p.audioTime)) := by
  induction pre with
  | nil =>
    intro p q post hpw hpt htq
    rw [List.nil_append]
    simp only [bracketLoop]
    rw [if_pos ⟨hpt, htq⟩]
  | cons a pre' ih =>
    intro p q post hpw hpt htq
    rw [List.cons_append] at hpw ⊢
    have hpw' : List.Pairwise (fun u v => u.subtitleTime < v.subtitleTime)
        (pre' ++ p :: q :: post) := hpw.of_cons
    cases pre' with
    | nil =>
      rw [List.nil_append] at hpw hpw' ⊢
      have hap : a.subtitleTime < p.subtitleTime :=
        (List.pairwise_cons.1 hpw).1 p (by simp)
      by_cases hb : t ≤ p.subtitleTime
      · have ht : t = p.subtitleTime := le_antisymm hb hpt
        have hne : p.subtitleTime - a.subtitleTime ≠ 0 := sub_ne_zero.2 (ne_of_gt hap)
        simp only [bracketLoop]
        rw [if_pos ⟨le_of_lt (lt_of_lt_of_le hap hpt), hb⟩, Option.some.injEq, ht,
          div_self hne]
        ring
      · simp only [bracketLoop]
        rw [if_neg (fun hc => hb hc.2), if_pos ⟨hpt, htq⟩]
    | cons b pre'' =>
      rw [List.cons_append]
      have hbp : b.subtitleTime < p.subtitleTime :=
        (List.pairwise_append.1 hpw').2.2 b (by simp) p (by simp)
      simp only [bracketLoop]
      rw [if_neg (fun hc => absurd hc.2 (not_le.2 (lt_of_lt_of_le hbp hpt)))]
      have h12 := ih p q post hpw' hpt htq
      rw [List.cons_append] at h12
      exact h12

/-- With strictly increasing subtitle times, `interpolateTime` at a point
bracketed by the adjacent pair `p, q` equals the linear interpolation between
`p` and `q` — including the boundary cases where the extrapolation branches
fire but agree in value. -/
theorem interpolateTime_bracket (t : ℚ) (pre post : List SyncPoint) (p q : SyncPoint)
    (hpw : List.Pairwise (fun u v => u.subtitleTime < v.subtitleTime) (pre ++ p :: q :: post))
    (hpt : p.subtitleTime ≤ t) (htq : t ≤ q.subtitleTime) :
    interpolateTime t (pre ++ p :: q :: post) =
      p.audioTime + (t - p.subtitleTime) / (q.subtitleTime - p.subtitleTime) *
        (q.audioTime - p.audioTime) := by
  cases pre with
  | nil =>
    rw [List.nil_append] at hpw ⊢
    have hpq : p.subtitleTime < q.subtitleTime :=
      (List.pairwise_cons.1 hpw).1 q (by simp)
    by_cases h1 : t ≤ p.subtitleTime
    · have ht : t = p.subtitleTime := le_antisymm h1 hpt
      rw [interpolate_branch1 t p q post h1, ht]
      simp [sub_self]
    · by_cases h2 : ((p :: q :: post).getLast (List.cons_ne_nil p (q :: post))).subtitleTime ≤ t
      · have h6 : (p :: q :: post).getLast (List.cons_ne_nil p (q :: post)) =
            (q :: post).getLast (List.cons_ne_nil q post) :=
          List.getLast_cons (List.cons_ne_nil q post)
        cases post with
        | nil =>
          have hq2 : q.subtitleTime ≤ t := by rw [h6] at h2; exact h2
          have ht : t = q.subtitleTime := le_antisymm htq hq2
          have hne : q.subtitleTime - p.subtitleTime ≠ 0 := sub_ne_zero.2 (ne_of_gt hpq)
          rw [interpolate_branch2 t p [q] q p [] rfl h1 h2, ht, div_self hne]
          ring
        | cons x post' =>
          exfalso
          have h8 := (List.pairwise_cons.1 hpw.of_cons).1
            ((x :: post').getLast (List.cons_ne_nil x post'))
            (List.getLast_mem (List.cons_ne_nil x post'))
          have h9 : ((x :: post').getLast (List.cons_ne_nil x post')).subtitleTime ≤ t := by
            rw [h6, List.getLast_cons (List.cons_ne_nil x post')] at h2
            exact h2
          linarith
      · rw [interpolate_branch3 t p (q :: post) h1 h2]
        have hb := bracketLoop_bracket t [] p q post (by rw [List.nil_append]; exact hpw) hpt htq
        rw [List.nil_append] at hb
        rw [hb]
        rfl
  | cons a pre' =>
    rw [List.cons_append] at hpw ⊢
    have hpq : p.subtitleTime < q.subtitleTime := by
      have h9 := (List.pairwise_append.1 hpw.of_cons).2.1
      exact (List.pairwise_cons.1 h9).1 q (by simp)
    have hap : a.subtitleTime < p.subtitleTime :=
      (List.pairwise_cons.1 hpw).1 p (by simp)
    have h1 : ¬ t ≤ a.subtitleTime := not_le.2 (lt_of_lt_of_le hap hpt)
    by_cases h2 : ((a :: (pre' ++ p :: q :: post)).getLast
        (List.cons_ne_nil a (pre' ++ p :: q :: post))).subtitleTime ≤ t
    · have h5 : (a :: (pre' ++ p :: q :: post)).getLast? =
          some ((q :: post).getLast (List.cons_ne_nil q post)) := by
        rw [show a :: (pre' ++ p :: q :: post) = ((a :: pre') ++ [p]) ++ (q :: post) by simp,
          List.getLast?_append, List.getLast?_eq_getLast (q :: post) (List.cons_ne_nil q post)]
        rfl
      have h7 := List.getLast?_eq_getLast (a :: (pre' ++ p :: q :: post))
        (List.cons_ne_nil a (pre' ++ p :: q :: post))
      rw [h5] at h7
      have h6 := (Option.some.inj h7).symm
      cases post with
      | nil =>
        have hq2 : q.subtitleTime ≤ t := by rw [h6] at h2; exact h2
        have ht : t = q.subtitleTime := le_antisymm htq hq2
        have hne : q.subtitleTime - p.subtitleTime ≠ 0 := sub_ne_zero.2 (ne_of_gt hpq)
        rw [interpolate_branch2 t a (pre' ++ p :: q :: []) q p (pre'.reverse ++ [a])
          (by simp) h1 h2, ht, div_self hne]
        ring
      | cons x post' =>
        exfalso
        have h9 : List.Pairwise (fun u v => u.subtitleTime < v.subtitleTime)
            (q :: x :: post') := by
          have h10 := (List.pairwise_append.1 hpw.of_cons).2.1
          exact h10.of_cons
        have h8 := (List.pairwise_cons.1 h9).1
          ((x :: post').getLast (List.cons_ne_nil x post'))
          (List.getLast_mem (List.cons_ne_nil x post'))
        have h11 : ((x :: post').getLast (List.cons_ne_nil x post')).subtitleTime ≤ t := by
          rw [h6, List.getLast_cons (List.cons_ne_nil x post')] at h2
          exact h2
        linarith
    · rw [interpolate_branch3 t a (pre' ++ p :: q :: post) h1 h2]
      have hb := bracketLoop_bracket t (a :: pre') p q post
        (by rw [List.cons_append]; exact hpw) hpt htq
      rw [List.cons_append] at hb
      rw [hb]
      rfl

/-- Claim C2: with two or more sync points, `applySyncCorrection` sorts a
copy of the points ascending by subtitle (reference) time and maps each
entry time through `interpolateTime` on the sorted list, rounding to the
nearest millisecond; `interpolateTime` extrapolates below the first point
with the slope of the first two points, extrapolates at or above the last
point with the slope of the last two points anchored at the last, and
otherwise interpolates linearly between a bracketing adjacent pair; with
points (reference 0 s, target 0 s) and (reference 10 s, target 11 s), an
entry at 5000 ms corrects to 5500 ms and one at 20000 ms to 22000 ms. -/
theorem c2_piecewise_linear :
    (∀ (pts : List SyncPoint) (E : List SubtitleEntry), 2 ≤ pts.length →
      (∀ e ∈ E, isTsStr e.startTime = true ∧ isTsStr e.endTime = true) →
      (List.insertionSort spLE pts).Perm pts ∧
      List.Sorted spLE (List.insertionSort spLE pts) ∧
      applySyncCorrection pts E = .ok (E.map (fun e =>
        { e with
          startTime := formatTimestamp
            (jsRound (interpolateTime (tsSeconds e.startTime)
              (List.insertionSort spLE pts) * 1000)),
          endTime := formatTimestamp
            (jsRound (interpolateTime (tsSeconds e.endTime)
              (List.insertionSort spLE pts) * 1000)) }))) ∧
    (∀ (t : ℚ) (p1 p2 : SyncPoint) (rest : List SyncPoint),
      t ≤ p1.subtitleTime →
      interpolateTime t (p1 :: p2 :: rest) =
        p1.audioTime + (p2.audioTime - p1.audioTime) /
          (p2.subtitleTime - p1.subtitleTime) * (t - p1.subtitleTime)) ∧
    (∀ (t : ℚ) (p1 : SyncPoint) (rest : List SyncPoint) (q2 q1 : SyncPoint)
      (R : List SyncPoint),
      (p1 :: rest).reverse = q2 :: q1 :: R →
      ¬ t ≤ p1.subtitleTime →
      ((p1 :: rest).getLast (List.cons_ne_nil p1 rest)).subtitleTime ≤ t →
      interpolateTime t (p1 :: rest) =
        q2.audioTime + (q2.audioTime - q1.audioTime) /
          (q2.subtitleTime - q1.subtitleTime) * (t - q2.subtitleTime)) ∧
    (∀ (t : ℚ) (pre post : List SyncPoint) (p q : SyncPoint),
      List.Pairwise (fun u v => u.subtitleTime < v.subtitleTime) (pre ++ p :: q :: post) →
      p.subtitleTime ≤ t → t ≤ q.subtitleTime →
      interpolateTime t (pre ++ p :: q :: post) =
        p.audioTime + (t - p.subtitleTime) / (q.subtitleTime - p.subtitleTime) *
          (q.audioTime - p.audioTime)) ∧
    (applySyncCorrection [⟨[], 0, 0, 1⟩, ⟨[], 11, 10, 2⟩]
        [⟨1, ("00:00:05,000").data, ("00:00:20,000").data, [("Hi").data]⟩] =
      .ok [⟨1, formatTimestamp 5500, formatTimestamp 22000, [("Hi").data]⟩]) := by
  refine ⟨fun pts E h2 hwf =>
      ⟨List.perm_insertionSort spLE pts, List.sorted_insertionSort spLE pts,
        applySync_interp_eq pts E h2 hwf⟩,
    interpolate_branch1, interpolate_branch2, interpolateTime_bracket, ?_⟩
  rw [applySync_interp_eq _ _ (by decide) (by decide),
    show List.insertionSort spLE [(⟨[], 0, 0, 1⟩ : SyncPoint), ⟨[], 11, 10, 2⟩] =
      [(⟨[], 0, 0, 1⟩ : SyncPoint), ⟨[], 11, 10, 2⟩] by decide]
  have hs5 : tsSeconds (("00:00:05,000").data) = 5 := by
    unfold tsSeconds
    rw [show tsValue (("00:00:05,000").data) = 5000 from rfl]
    norm_num
  have hs20 : tsSeconds (("00:00:20,000").data) = 20 := by
    unfold tsSeconds
    rw [show tsValue (("00:00:20,000").data) = 20000 from rfl]
    norm_num
  have h1 : jsRound (interpolateTime (tsSeconds (("00:00:05,000").data))
      [(⟨[], 0, 0, 1⟩ : SyncPoint), ⟨[], 11, 10, 2⟩] * 1000) = 5500 := by
    rw [hs5, show interpolateTime 5 [(⟨[], 0, 0, 1⟩ : SyncPoint), ⟨[], 11, 10, 2⟩] = 11/2 by
        simp only [interpolateTime]
        norm_num [bracketLoop],
      show ((11/2 : ℚ) * 1000) = ((5500 : Int) : ℚ) by norm_num]
    exact jsRound_intCast _
  have h2 : jsRound (interpolateTime (tsSeconds (("00:00:20,000").data))
      [(⟨[], 0, 0, 1⟩ : SyncPoint), ⟨[], 11, 10, 2⟩] * 1000) = 22000 := by
    rw [hs20, show interpolateTime 20 [(⟨[], 0, 0, 1⟩ : SyncPoint), ⟨[], 11, 10, 2⟩] = 22 by
        simp only [interpolateTime]
        norm_num [bracketLoop],
      show ((22 : ℚ) * 1000) = ((22000 : Int) : ℚ) by norm_num]
    exact jsRound_intCast _
  simp only [List.map_cons, List.map_nil, h1, h2]

theorem c2_piecewise_linear_witness :
    ((0 : ℚ) ≤ (⟨[], 0, 0, 1⟩ : SyncPoint).subtitleTime) ∧
    interpolateTime 0 [(⟨[], 0, 0, 1⟩ : SyncPoint), ⟨[], 11, 10, 2⟩] =
      (⟨[], 0, 0, 1⟩ : SyncPoint).audioTime +
        ((⟨[], 11, 10, 2⟩ : SyncPoint).audioTime - (⟨[], 0, 0, 1⟩ : SyncPoint).audioTime) /
          ((⟨[], 11, 10, 2⟩ : SyncPoint).subtitleTime -
            (⟨[], 0, 0, 1⟩ : SyncPoint).subtitleTime) *
          (0 - (⟨[], 0, 0, 1⟩ : SyncPoint).subtitleTime) :=
  ⟨by decide,
    c2_piecewise_linear.2.1 0 ⟨[], 0, 0, 1⟩ ⟨[], 11, 10, 2⟩ [] (by decide)⟩
